import Mathlib

/-!
Shallow embedding of the unparser-derivation pass of langkit
(src/langkit/unparsers.py), together with theorems checking the
natural-language specification against it.

Conventions of the embedding:
* Python mutable state is passed explicitly; methods that mutate an object
  return the updated value.
* The fatal diagnostic primitive (external module langkit.diagnostics) and
  the parser-combinator data model (external module langkit.parsers) are
  modelled from the spec, as marked in their doc comments.
* Python truthiness matters at one call site (ListNodeUnparser._combine
  passes a string where the predicate is expected), so the predicate and
  message arguments of the diagnostic primitive are modelled as dynamically
  typed values (PyVal).
* Fallible code returns Except PyVal; uncatchable Python failures
  (assert statements, IndexError, NotImplementedError) are modelled as
  Except.error values whose text starts with the exception name.
-/

/-- A dynamically typed Python value, as far as the diagnostic primitive
needs one: a boolean or a string. -/
inductive PyVal where
  | pyBool (b : Bool)
  | pyStr (s : String)
deriving DecidableEq

/-- Python truthiness: False is falsy, a string is falsy exactly when it is
empty. -/
def PyVal.truthy : PyVal → Bool
  | .pyBool b => b
  | .pyStr s => !(s == "")

/-- Modelled from the spec: the fatal assertion primitive of the
diagnostics sink (langkit.diagnostics.check_source_language, not under
src/): it raises, stopping compilation, exactly when the first argument is
falsy, and reports the second argument. -/
def check_source_language (predicate : PyVal) (message : PyVal) :
    Except PyVal Unit :=
  if predicate.truthy then .ok () else .error message

/-- Modelled from the spec: a lexical token kind of the node-type registry
(langkit.lexer.TokenAction, not under src/): an external identity, paired
with the literal text of its matcher when the kind has a fixed literal. -/
structure TokenAction where
  name : String
  matcher : Option String
deriving DecidableEq

/-- Modelled from the spec: the distinguished termination token kind
(langkit.lexer.LexerToken.Termination, not under src/). -/
def LexerToken.Termination : TokenAction := { name := "Termination", matcher := none }

/-- Unparser for a token (class TokenUnparser). The source asserts that
match_text is set exactly when the token kind has no literal matcher. -/
structure TokenUnparser where
  token : TokenAction
  match_text : Option String
deriving DecidableEq

/-- TokenUnparser._dump/dumps: the match text if there is one, otherwise
the literal text of the token kind matcher (the source accesses
token.matcher.to_match, which its constructor assertion guarantees to be
present when match_text is absent; the embedding defaults to ""). -/
def TokenUnparser.dumps (t : TokenUnparser) : String :=
  match t.match_text with
  | some s => s
  | none => t.token.matcher.getD ""

/-- TokenUnparser.equivalent: None is equivalent only to None; two present
token unparsers are equivalent exactly when their dumped texts are equal. -/
def TokenUnparser.equivalent : Option TokenUnparser → Option TokenUnparser → Bool
  | none, none => true
  | none, some _ => false
  | some _, none => false
  | some t1, some t2 => t1.dumps == t2.dumps

/-- TokenUnparser.dump_or_none. -/
def TokenUnparser.dump_or_none : Option TokenUnparser → String
  | none => "<none>"
  | some t => t.dumps

/-- Sequence of token unparsers (class TokenSequenceUnparser). -/
structure TokenSequenceUnparser where
  tokens : List TokenUnparser
deriving DecidableEq

/-- TokenSequenceUnparser._dump/dumps. -/
def TokenSequenceUnparser.dumps (s : TokenSequenceUnparser) : String :=
  String.intercalate " " (s.tokens.map TokenUnparser.dumps)

/-- TokenSequenceUnparser.__add__: concatenation. -/
def TokenSequenceUnparser.add (s other : TokenSequenceUnparser) :
    TokenSequenceUnparser :=
  { tokens := s.tokens ++ other.tokens }

/-- The boolean condition checked by TokenSequenceUnparser.check_equivalence:
equal lengths and pairwise token equivalence. -/
def TokenSequenceUnparser.equivalentB (s other : TokenSequenceUnparser) : Bool :=
  s.tokens.length == other.tokens.length &&
    (s.tokens.zip other.tokens).all
      (fun p => TokenUnparser.equivalent (some p.1) (some p.2))

/-- TokenSequenceUnparser.check_equivalence: emit a fatal diagnostic unless
the two sequences are equivalent. -/
def TokenSequenceUnparser.check_equivalence (s : TokenSequenceUnparser)
    (sequence_name : String) (other : TokenSequenceUnparser) :
    Except PyVal Unit :=
  check_source_language
    (.pyBool (TokenSequenceUnparser.equivalentB s other))
    (.pyStr ("Inconsistent " ++ sequence_name ++ ":\n  " ++ s.dumps
             ++ "\nand:\n  " ++ other.dumps))

/-- Modelled from the spec: a structural field of a node type, from the
node-type registry (langkit.compiled_types, not under src/); qualname is
its qualified name used in diagnostics. -/
structure ParseField where
  qualname : String
deriving DecidableEq

/-- Modelled from the spec: a node type of the node-type registry
(langkit.compiled_types.ASTNodeType, not under src/): flags and the
ordered parse-field list, as consumed by the unparser pass.
is_ast_node tells whether a deferred reference to it resolves to a parse
node; is_list_type and element_list_eq_self model the exemption
node.is_list_type and node.element_type.list == node of the unused-node
warning. -/
structure ASTNodeType where
  name : String
  parse_fields : List ParseField
  abstract : Bool
  synthetic : Bool
  is_token_node : Bool
  is_ast_node : Bool
  is_list_type : Bool
  element_list_eq_self : Bool
deriving DecidableEq

/-- ASTNodeType.get_parse_fields, as used by RegularNodeUnparser. -/
def ASTNodeType.get_parse_fields (n : ASTNodeType) : List ParseField :=
  n.parse_fields

/-- Unparser for a node field (class FieldUnparser): the owning node, the
field, whether every known occurrence is a dummy entry from a Null parser,
and the token sequences bracketing the field. -/
structure FieldUnparser where
  node : ASTNodeType
  field : ParseField
  always_absent : Bool
  pre_tokens : TokenSequenceUnparser
  post_tokens : TokenSequenceUnparser
deriving DecidableEq

/-- FieldUnparser.__init__: an empty field unparser (always_absent true,
empty bracketing sequences). -/
def FieldUnparser.mk0 (node : ASTNodeType) (field : ParseField) : FieldUnparser :=
  { node := node, field := field, always_absent := true,
    pre_tokens := { tokens := [] }, post_tokens := { tokens := [] } }

/-- FieldUnparser._combine (the asserts on same node and field are modelled
as internal errors): if either operand is always absent return the other,
else require pre/post token-sequence equivalence and return the left
operand. -/
def FieldUnparser._combine (self other : FieldUnparser) :
    Except PyVal FieldUnparser :=
  if !(other.node == self.node) then .error (.pyStr "AssertionError")
  else if !(other.field == self.field) then .error (.pyStr "AssertionError")
  else if self.always_absent then .ok other
  else if other.always_absent then .ok self
  else do
    self.pre_tokens.check_equivalence
      ("prefix tokens for " ++ self.field.qualname) other.pre_tokens
    self.post_tokens.check_equivalence
      ("postfix tokens for " ++ self.field.qualname) other.post_tokens
    .ok self

/-- Unparser for regular nodes (class RegularNodeUnparser). -/
structure RegularNodeUnparser where
  node : ASTNodeType
  pre_tokens : TokenSequenceUnparser
  field_unparsers : List FieldUnparser
  inter_tokens : List TokenSequenceUnparser
  post_tokens : TokenSequenceUnparser
deriving DecidableEq

/-- RegularNodeUnparser.__init__: empty pre/inter/post sequences and one
empty field unparser per parse field. -/
def RegularNodeUnparser.mk0 (node : ASTNodeType) : RegularNodeUnparser :=
  { node := node,
    pre_tokens := { tokens := [] },
    field_unparsers := node.get_parse_fields.map (FieldUnparser.mk0 node),
    inter_tokens :=
      (List.range (node.get_parse_fields.length - 1)).map
        (fun _ => { tokens := [] }),
    post_tokens := { tokens := [] } }

/-- Unparser for list nodes (class ListNodeUnparser): node plus optional
separator token. -/
structure ListNodeUnparser where
  node : ASTNodeType
  separator : Option TokenUnparser
deriving DecidableEq

/-- ListNodeUnparser._combine, translated literally from the source: the
source passes the message string as the first argument of
check_source_language and the equivalence predicate as the second, unlike
every other call site in the module. -/
def ListNodeUnparser._combine (self other : ListNodeUnparser) :
    Except PyVal ListNodeUnparser :=
  if !(other.node == self.node) then .error (.pyStr "AssertionError")
  else do
    check_source_language
      (.pyStr ("Inconsistent separation token for " ++ self.node.name
               ++ ": " ++ TokenUnparser.dump_or_none self.separator
               ++ " and " ++ TokenUnparser.dump_or_none other.separator))
      (.pyBool (TokenUnparser.equivalent self.separator other.separator))
    .ok self

/-- The closed variant set of node unparsers (subclasses of NodeUnparser:
Regular, List, TokenNode, Null). -/
inductive NodeUnparser where
  | regular (r : RegularNodeUnparser)
  | list (l : ListNodeUnparser)
  | tokenNode (node : ASTNodeType)
  | nullU (node : ASTNodeType)
deriving DecidableEq

/-- Whether a node unparser is the Null variant (isinstance check used in
finalize). -/
def NodeUnparser.isNull : NodeUnparser → Bool
  | .nullU _ => true
  | _ => false

/-- FieldUnparser.combine as reached through Unparser.combine: the
isinstance assertion holds by typing, so this is FieldUnparser._combine. -/
def FieldUnparser.combine (self other : FieldUnparser) :
    Except PyVal FieldUnparser :=
  FieldUnparser._combine self other

/-- The check_equivalence loop over inter_tokens in
RegularNodeUnparser._combine. -/
def RegularNodeUnparser.checkInters (fields : List FieldUnparser) :
    List (TokenSequenceUnparser × TokenSequenceUnparser) → Nat →
    Except PyVal Unit
  | [], _ => .ok ()
  | (si, oi) :: rest, i =>
    match fields[i]? with
    | none => .error (.pyStr "IndexError")
    | some fu => do
      si.check_equivalence ("tokens after " ++ fu.field.qualname) oi
      RegularNodeUnparser.checkInters fields rest (i + 1)

/-- The field-by-field combination loop in RegularNodeUnparser._combine. -/
def RegularNodeUnparser.combineFields :
    List (FieldUnparser × FieldUnparser) → Except PyVal (List FieldUnparser)
  | [] => .ok []
  | (a, b) :: rest => do
    let c ← FieldUnparser.combine a b
    let cs ← RegularNodeUnparser.combineFields rest
    .ok (c :: cs)

/-- RegularNodeUnparser._combine: assert same node and matching lengths,
check pre and inter token-sequence equivalence, and combine the field
unparsers pairwise; pre/inter/post of the result come from the left
operand. -/
def RegularNodeUnparser._combine (self other : RegularNodeUnparser) :
    Except PyVal RegularNodeUnparser :=
  if !(self.node == other.node) then .error (.pyStr "AssertionError")
  else if !(self.field_unparsers.length == other.field_unparsers.length) then
    .error (.pyStr "AssertionError")
  else if !(self.inter_tokens.length == other.inter_tokens.length) then
    .error (.pyStr "AssertionError")
  else do
    self.pre_tokens.check_equivalence
      ("prefix tokens for " ++ self.node.name) other.pre_tokens
    RegularNodeUnparser.checkInters self.field_unparsers
      (self.inter_tokens.zip other.inter_tokens) 0
    let fus ← RegularNodeUnparser.combineFields
      (self.field_unparsers.zip other.field_unparsers)
    .ok { node := self.node,
          pre_tokens := self.pre_tokens,
          field_unparsers := fus,
          inter_tokens := self.inter_tokens,
          post_tokens := self.post_tokens }

/-- TokenNodeUnparser._combine: assert same node, return the left
operand. -/
def TokenNodeUnparser._combine (self other : ASTNodeType) :
    Except PyVal ASTNodeType :=
  if !(self == other) then .error (.pyStr "AssertionError") else .ok self

/-- Unparser.combine dispatch for node unparsers: the isinstance assertion
rejects mixed variants; NullNodeUnparser does not override _combine, so
combining null unparsers is the not-implemented internal error. -/
def NodeUnparser.combine (self other : NodeUnparser) :
    Except PyVal NodeUnparser :=
  match self, other with
  | .regular a, .regular b => (RegularNodeUnparser._combine a b).map .regular
  | .list a, .list b => (ListNodeUnparser._combine a b).map .list
  | .tokenNode a, .tokenNode b => (TokenNodeUnparser._combine a b).map .tokenNode
  | .nullU _, .nullU _ => .error (.pyStr "NotImplementedError")
  | _, _ => .error (.pyStr "AssertionError: Incompatible unparsers")

/-- Modelled from the spec: the payload of a fixed-token-match combinator
(langkit.parsers._Token, not under src/): the token kind (attributes val
and _val) and the optional literal match text. -/
structure TokParser where
  val : TokenAction
  match_text : Option String
deriving DecidableEq

/-- Modelled from the spec: the payload of an optional combinator with
boolean-alternative semantics (Opt._booleanize, not under src/): the node
types of the present and absent alternatives; _alternatives is the pair in
this order. -/
structure BoolAlts where
  alt_present : ASTNodeType
  alt_absent : ASTNodeType
deriving DecidableEq

/-- Modelled from the spec: the closed set of parser combinator kinds
(langkit.parsers, not under src/), each carrying the metadata the unparser
pass reads. A deferred reference also carries its lazily resolved
sub-parser (attribute parser); extract and transform carry their wrapped
sub-parser, asserted by the source to be a row. -/
inductive Parser where
  | defer (typ : ASTNodeType) (sub : Parser)
  | dontSkip (sub : Parser)
  | noBacktrack
  | null (typ : ASTNodeType)
  | opt (booleanize : Option BoolAlts) (is_error : Bool) (sub : Parser)
  | orP (subs : List Parser)
  | predicate (sub : Parser)
  | skip (typ : ASTNodeType)
  | extract (index : Nat) (sub : Parser)
  | row (subs : List Parser)
  | tok (t : TokParser)
  | transform (typ : ASTNodeType) (sub : Parser)
  | list (typ : ASTNodeType) (sep : Option TokParser) (sub : Parser)

/-- The combinator kinds, for the type-based dispatch of
unparser_struct_eq. -/
inductive ParserKind where
  | deferK
  | dontSkipK
  | noBacktrackK
  | nullK
  | optK
  | orK
  | predicateK
  | skipK
  | extractK
  | rowK
  | tokK
  | transformK
  | listK
deriving DecidableEq

/-- The kind (Python type) of a combinator. -/
def Parser.kind : Parser → ParserKind
  | .defer _ _ => .deferK
  | .dontSkip _ => .dontSkipK
  | .noBacktrack => .noBacktrackK
  | .null _ => .nullK
  | .opt _ _ _ => .optK
  | .orP _ => .orK
  | .predicate _ => .predicateK
  | .skip _ => .skipK
  | .extract _ _ => .extractK
  | .row _ => .rowK
  | .tok _ => .tokK
  | .transform _ _ => .transformK
  | .list _ _ _ => .listK

/-- A short textual rendering of a combinator, standing in for the Python
repr used inside diagnostic messages. -/
def Parser.describe (p : Parser) : String :=
  match p.kind with
  | .deferK => "Defer"
  | .dontSkipK => "DontSkip"
  | .noBacktrackK => "NoBacktrack"
  | .nullK => "Null"
  | .optK => "Opt"
  | .orK => "Or"
  | .predicateK => "Predicate"
  | .skipK => "Skip"
  | .extractK => "Extract"
  | .rowK => "Row"
  | .tokK => "Token"
  | .transformK => "Transform"
  | .listK => "List"

/-- unwrap_dont_skip: strip one DontSkip wrapper. -/
def unwrap_dont_skip : Parser → Parser
  | .dontSkip sub => sub
  | p => p

/-- Modelled from the spec: Parser.children (langkit.parsers, not under
src/) — each combinator exposes its child sub-parsers; a deferred
reference exposes none, since its resolution is lazy. -/
def Parser.children : Parser → List Parser
  | .defer _ _ => []
  | .dontSkip s => [s]
  | .noBacktrack => []
  | .null _ => []
  | .opt _ _ s => [s]
  | .orP subs => subs
  | .predicate s => [s]
  | .skip _ => []
  | .extract _ s => [s]
  | .row subs => subs
  | .tok _ => []
  | .transform _ s => [s]
  | .list _ _ s => [s]

/-- Modelled from the spec: Parser.get_type — the node type a combinator
constructs on its own, none for combinators that construct no node. -/
def Parser.get_type : Parser → Option ASTNodeType
  | .defer t _ => some t
  | .null t => some t
  | .skip t => some t
  | .transform t _ => some t
  | .list t _ _ => some t
  | _ => none

/-- Modelled from the spec: Parser.discard — whether a sub-parser
contributes no field slot (a pure-token/skip sub-parser in the words of
the spec). -/
def Parser.discard : Parser → Bool
  | .tok _ => true
  | .noBacktrack => true
  | .dontSkip s => s.discard
  | .opt b _ s => b.isNone && s.discard
  | _ => false

/-- Whether a combinator is the always-empty kind (isinstance(p, Null)). -/
def Parser.isNullP : Parser → Bool
  | .null _ => true
  | _ => false

/-- Whether a combinator is the no-backtrack marker. -/
def Parser.isNoBacktrack : Parser → Bool
  | .noBacktrack => true
  | _ => false

/-- Whether a combinator is a deferred reference. -/
def Parser.isDefer : Parser → Bool
  | .defer _ _ => true
  | _ => false

/-- Whether a combinator is a fixed-token match. -/
def Parser.isTok : Parser → Bool
  | .tok _ => true
  | _ => false

/-- The val attribute of a fixed-token combinator, none on other kinds. -/
def Parser.valAttr : Parser → Option TokenAction
  | .tok t => some t.val
  | _ => none

/-- The index attribute of an extraction combinator, none on other
kinds. -/
def Parser.indexAttr : Parser → Option Nat
  | .extract i _ => some i
  | _ => none

/-- The parser attribute (wrapped sub-parser) of an extraction combinator;
on other kinds the combinator itself (unparser_struct_eq only reads it
under a kind guard). -/
def Parser.parserAttr : Parser → Parser
  | .extract _ s => s
  | p => p

mutual

/-- A size measure for parsers (the auto-generated sizeOf of this nested
inductive is noncomputable, so the recursive walks below measure
termination with this function instead). -/
def Parser.psize : Parser → Nat
  | .defer _ s => 1 + s.psize
  | .dontSkip s => 1 + s.psize
  | .noBacktrack => 1
  | .null _ => 1
  | .opt _ _ s => 1 + s.psize
  | .orP subs => 1 + Parser.psizeList subs
  | .predicate s => 1 + s.psize
  | .skip _ => 1
  | .extract _ s => 1 + s.psize
  | .row subs => 1 + Parser.psizeList subs
  | .tok _ => 1
  | .transform _ s => 1 + s.psize
  | .list _ _ s => 1 + s.psize

/-- Sum of the sizes of a list of parsers. -/
def Parser.psizeList : List Parser → Nat
  | [] => 0
  | p :: ps => Parser.psize p + Parser.psizeList ps

end

theorem Parser.psize_pos (p : Parser) : 1 <= p.psize := by
  cases p <;> simp [Parser.psize]

theorem Parser.psize_le_psizeList {p : Parser} {ps : List Parser}
    (h : p ∈ ps) : p.psize <= Parser.psizeList ps := by
  induction ps with
  | nil => cases h
  | cons q qs ih =>
    rcases List.mem_cons.1 h with rfl | h2
    · simp [Parser.psizeList]
    · have := ih h2
      simp [Parser.psizeList]
      omega

theorem Parser.psize_unwrap_le (p : Parser) :
    (unwrap_dont_skip p).psize <= p.psize := by
  cases p <;> simp [unwrap_dont_skip, Parser.psize]

theorem Parser.psizeList_children_lt (p : Parser) :
    Parser.psizeList p.children < p.psize := by
  cases p <;> simp [Parser.children, Parser.psize, Parser.psizeList] <;> omega

/-- creates_node: parsers that create a node directly or only reference
parsers that do. The source reads p.parser.parsers on extraction
combinators, asserted elsewhere to wrap a row; extraction of a non-row is
unreachable and modelled as false. -/
def creates_node (p : Parser) : Bool :=
  match p with
  | .orP subs => subs.attach.all (fun c => creates_node c.1)
  | .defer t _ => t.is_ast_node
  | .opt b _ sub => creates_node sub || b.isSome
  | .predicate sub => creates_node sub
  | .extract _ inner =>
    match inner with
    | .row [n, t] =>
      creates_node n &&
        (match t with
         | .tok tk => tk.val == LexerToken.Termination
         | _ => false)
    | _ => false
  | .transform _ _ => true
  | .skip _ => true
  | .list _ _ _ => true
  | _ => false
termination_by p.psize
decreasing_by
  all_goals first
    | (have h1 := Parser.psize_le_psizeList c.2
       simp [Parser.psize]
       omega)
    | (simp [Parser.psize, Parser.psizeList]
       omega)
    | simp [Parser.psize, Parser.psizeList]

/-- TokenUnparser.from_parser on a present token parser: build the token
unparser for (token kind, match text or None); the registry cache only
deduplicates object identity, so the embedding constructs the value
directly. Python coerces an empty match text to None. -/
def TokenUnparser.ofTok (t : TokParser) : TokenUnparser :=
  { token := t.val,
    match_text := t.match_text.bind (fun s => if s == "" then none else some s) }

/-- TokenUnparser.from_parser: None maps to None. -/
def TokenUnparser.fromParser : Option TokParser → Option TokenUnparser
  | none => none
  | some t => some (TokenUnparser.ofTok t)

/-- NodeUnparser._emit_to_token_sequence: turn a parser into the constant
sequence of tokens it parses, appended to the accumulator, or fail with
the fatal diagnostic when the parser is not a static sequence of
tokens. -/
def NodeUnparser._emit_to_token_sequence (parser : Parser)
    (token_sequence : List TokenUnparser) :
    Except PyVal (List TokenUnparser) :=
  match h : unwrap_dont_skip parser with
  | .row subs =>
    subs.attach.foldlM
      (fun acc sp => NodeUnparser._emit_to_token_sequence sp.1 acc)
      token_sequence
  | .tok t => .ok (token_sequence ++ [TokenUnparser.ofTok t])
  | .opt _ is_error sub =>
    if is_error then NodeUnparser._emit_to_token_sequence sub token_sequence
    else
      .error (.pyStr ("Static sequence of tokens expected, but got: "
                      ++ (unwrap_dont_skip parser).describe))
  | .dontSkip _ => .ok token_sequence
  | .noBacktrack => .ok token_sequence
  | q =>
    .error (.pyStr ("Static sequence of tokens expected, but got: "
                    ++ q.describe))
termination_by parser.psize
decreasing_by
  · have h1 := Parser.psize_le_psizeList sp.2
    have h2 := Parser.psize_unwrap_le parser
    rw [h] at h2
    simp [Parser.psize, Parser.psizeList] at h2
    omega
  · have h2 := Parser.psize_unwrap_le parser
    rw [h] at h2
    simp [Parser.psize] at h2
    omega

/-- NodeUnparser._split_extract: split an extraction combinator into the
static token sequence before the extracted index, the node parser at the
index, and the static token sequence after it (the two isinstance asserts
of the source are modelled as internal errors, as is the out-of-range
index access). -/
def NodeUnparser._split_extract (parser : Parser) :
    Except PyVal (TokenSequenceUnparser × Parser × TokenSequenceUnparser) :=
  match parser with
  | .extract index (.row subs) => do
    let pre_toks ← (subs.take index).foldlM
      (fun acc sp => NodeUnparser._emit_to_token_sequence sp acc) []
    match subs[index]? with
    | none => .error (.pyStr "IndexError")
    | some nodeSub => do
      let post_toks ← (subs.drop (index + 1)).foldlM
        (fun acc sp => NodeUnparser._emit_to_token_sequence sp acc) []
      .ok ({ tokens := pre_toks }, nodeSub, { tokens := post_toks })
  | .extract _ _ => .error (.pyStr "AssertionError")
  | _ => .error (.pyStr "AssertionError")

theorem Parser.decTail (sp : Parser) (rest : List Parser) (k : Nat) :
    4 * Parser.psizeList rest + k < 4 * Parser.psizeList (sp :: rest) + k := by
  have hp := Parser.psize_pos sp
  simp [Parser.psizeList]
  omega

theorem Parser.decHeadField (sp : Parser) (rest : List Parser) :
    4 * sp.psize < 4 * Parser.psizeList (sp :: rest) + 1 := by
  simp [Parser.psizeList]
  omega

theorem Parser.decHeadOr (sp : Parser) (rest : List Parser) :
    4 * sp.psize + 2 < 4 * Parser.psizeList (sp :: rest) + 3 := by
  simp [Parser.psizeList]
  omega

theorem Parser.decTransformRow (parser : Parser) (t : ASTNodeType)
    (subs : List Parser)
    (h : unwrap_dont_skip parser = Parser.transform t (Parser.row subs)) :
    4 * Parser.psizeList subs + 1 < 4 * parser.psize + 2 := by
  have hu := Parser.psize_unwrap_le parser
  rw [h] at hu
  simp [Parser.psize] at hu
  omega

theorem Parser.decOptSub (parser : Parser) (b : Option BoolAlts) (e : Bool)
    (sub : Parser) (h : unwrap_dont_skip parser = Parser.opt b e sub) (k : Nat) :
    4 * sub.psize + k < 4 * parser.psize + k := by
  have hu := Parser.psize_unwrap_le parser
  rw [h] at hu
  simp [Parser.psize] at hu
  omega

theorem Parser.decOrSubs (parser : Parser) (subs : List Parser)
    (h : unwrap_dont_skip parser = Parser.orP subs) :
    4 * Parser.psizeList subs + 3 < 4 * parser.psize := by
  have hu := Parser.psize_unwrap_le parser
  rw [h] at hu
  simp [Parser.psize] at hu
  omega

theorem Parser.decExtractGet (parser : Parser) (index : Nat)
    (subs : List Parser) (h3 : index < subs.length)
    (h : unwrap_dont_skip parser = Parser.extract index (Parser.row subs)) :
    4 * (subs.get ⟨index, h3⟩).psize < 4 * parser.psize := by
  have hu := Parser.psize_unwrap_le parser
  rw [h] at hu
  have hm := Parser.psize_le_psizeList (List.get_mem subs index h3)
  simp [Parser.psize] at hu
  omega

mutual

/-- NodeUnparser.from_parser: derive the node unparser occurrence for a
parser known to build the given node type. The leading assertion on
abstract/synthetic nodes is modelled as an internal error. -/
def NodeUnparser.fromParser (node : ASTNodeType) (parser : Parser) :
    Except PyVal NodeUnparser :=
  if node.abstract || node.synthetic then
    .error (.pyStr "AssertionError: Invalid unparser request")
  else if node.is_token_node then
    match unwrap_dont_skip parser with
    | .transform _ _ => .ok (.tokenNode node)
    | q =>
      .error (.pyStr ("Unsupported token node parser for unparsers"
                      ++ " generation: " ++ q.describe))
  else
    match h : unwrap_dont_skip parser with
    | .transform _ inner =>
      match h2 : inner with
      | .row subs => do
        let r ← NodeUnparser.fromParserRow subs (RegularNodeUnparser.mk0 node) 0
        .ok (.regular r)
      | _ => .error (.pyStr "AssertionError")
    | .list _ sep _ =>
      .ok (.list { node := node, separator := TokenUnparser.fromParser sep })
    | .opt booleanize _ sub =>
      match booleanize with
      | some alts =>
        if node == alts.alt_present then do
          let toks ← NodeUnparser._emit_to_token_sequence sub []
          .ok (.regular
            { RegularNodeUnparser.mk0 node with pre_tokens := { tokens := toks } })
        else .ok (.regular (RegularNodeUnparser.mk0 node))
      | none => NodeUnparser.fromParser node sub
    | .null _ => .ok (.nullU node)
    | q =>
      .error (.pyStr ("Unsupported parser for unparsers generation: "
                      ++ q.describe))
termination_by 4 * parser.psize + 2
decreasing_by
  all_goals first
    | exact Parser.decTransformRow _ _ _ h
    | exact Parser.decOptSub _ _ _ _ h 2
    | exact Parser.decOptSub _ _ _ _ h 0
    | exact Parser.decOrSubs _ _ h
    | exact Parser.decExtractGet _ _ _ h3 h
    | exact Parser.decTail _ _ _
    | exact Parser.decHeadField _ _
    | exact Parser.decHeadOr _ _

/-- The loop over row sub-parsers in the transform branch of
NodeUnparser.from_parser: discarding sub-parsers are emitted into the
pre/inter/post token sequence selected by the current field position, and
each node-producing sub-parser is resolved into the next field
unparser. -/
def NodeUnparser.fromParserRow (subs : List Parser)
    (r : RegularNodeUnparser) (next_field : Nat) :
    Except PyVal RegularNodeUnparser :=
  match subs with
  | [] => .ok r
  | sp :: rest =>
    if sp.discard then
      if next_field == 0 then do
        let toks ← NodeUnparser._emit_to_token_sequence sp r.pre_tokens.tokens
        NodeUnparser.fromParserRow rest
          { r with pre_tokens := { tokens := toks } } next_field
      else if next_field < r.field_unparsers.length then
        match r.inter_tokens[next_field - 1]? with
        | none => .error (.pyStr "IndexError")
        | some seq => do
          let toks ← NodeUnparser._emit_to_token_sequence sp seq.tokens
          NodeUnparser.fromParserRow rest
            { r with inter_tokens :=
                r.inter_tokens.set (next_field - 1) { tokens := toks } }
            next_field
      else do
        let toks ← NodeUnparser._emit_to_token_sequence sp r.post_tokens.tokens
        NodeUnparser.fromParserRow rest
          { r with post_tokens := { tokens := toks } } next_field
    else
      match r.field_unparsers[next_field]? with
      | none => .error (.pyStr "IndexError")
      | some fu => do
        let fu2 ← NodeUnparser._emit_to_field_unparser sp fu
        NodeUnparser.fromParserRow rest
          { r with field_unparsers := r.field_unparsers.set next_field fu2 }
          (next_field + 1)
termination_by 4 * Parser.psizeList subs + 1
decreasing_by
  all_goals first
    | exact Parser.decTransformRow _ _ _ h
    | exact Parser.decOptSub _ _ _ _ h 2
    | exact Parser.decOptSub _ _ _ _ h 0
    | exact Parser.decOrSubs _ _ h
    | exact Parser.decExtractGet _ _ _ h3 h
    | exact Parser.decTail _ _ _
    | exact Parser.decHeadField _ _
    | exact Parser.decHeadOr _ _

/-- The loop over alternation branches in the Or case of
NodeUnparser._emit_to_field_unparser: every non-deferred branch must
itself derive a node unparser (the result is discarded, errors
propagate). A branch without a node type would crash the source; this is
modelled as an internal error. -/
def NodeUnparser.fromParserOrLoop (subs : List Parser) : Except PyVal Unit :=
  match subs with
  | [] => .ok ()
  | sp :: rest =>
    if sp.isDefer then NodeUnparser.fromParserOrLoop rest
    else
      match sp.get_type with
      | none => .error (.pyStr "TypeError")
      | some t => do
        let _ ← NodeUnparser.fromParser t sp
        NodeUnparser.fromParserOrLoop rest
termination_by 4 * Parser.psizeList subs + 3
decreasing_by
  all_goals first
    | exact Parser.decTransformRow _ _ _ h
    | exact Parser.decOptSub _ _ _ _ h 2
    | exact Parser.decOptSub _ _ _ _ h 0
    | exact Parser.decOrSubs _ _ h
    | exact Parser.decExtractGet _ _ _ h3 h
    | exact Parser.decTail _ _ _
    | exact Parser.decHeadField _ _
    | exact Parser.decHeadOr _ _

/-- NodeUnparser._emit_to_field_unparser: complete a field unparser from
the parser producing the field. In the extraction branch the body of
NodeUnparser._split_extract is inlined so that the recursive call is on a
visible subterm of the row. -/
def NodeUnparser._emit_to_field_unparser (parser : Parser)
    (field_unparser : FieldUnparser) : Except PyVal FieldUnparser :=
  match h : unwrap_dont_skip parser with
  | .defer _ _ =>
    .ok { field_unparser with
          always_absent := field_unparser.always_absent && false }
  | .list _ _ _ =>
    .ok { field_unparser with
          always_absent := field_unparser.always_absent && false }
  | .null _ =>
    .ok { field_unparser with
          always_absent := field_unparser.always_absent && true }
  | .transform _ _ =>
    .ok { field_unparser with
          always_absent := field_unparser.always_absent && false }
  | .opt booleanize _ sub =>
    if booleanize.isNone then
      NodeUnparser._emit_to_field_unparser sub
        { field_unparser with always_absent := false }
    else .ok field_unparser
  | .orP subs => do
    NodeUnparser.fromParserOrLoop subs
    .ok { field_unparser with always_absent := false }
  | .extract index inner =>
    match h2 : inner with
    | .row subs => do
      let pre_toks ← (subs.take index).foldlM
        (fun acc sp => NodeUnparser._emit_to_token_sequence sp acc) []
      if h3 : index < subs.length then do
        let post_toks ← (subs.drop (index + 1)).foldlM
          (fun acc sp => NodeUnparser._emit_to_token_sequence sp acc) []
        NodeUnparser._emit_to_field_unparser (subs.get ⟨index, h3⟩)
          { field_unparser with
            always_absent := false,
            pre_tokens :=
              field_unparser.pre_tokens.add { tokens := pre_toks },
            post_tokens :=
              TokenSequenceUnparser.add { tokens := post_toks }
                field_unparser.post_tokens }
      else .error (.pyStr "IndexError")
    | _ => .error (.pyStr "AssertionError")
  | q =>
    .error (.pyStr ("Unsupported parser for node field: " ++ q.describe))
termination_by 4 * parser.psize
decreasing_by
  all_goals first
    | exact Parser.decTransformRow _ _ _ h
    | exact Parser.decOptSub _ _ _ _ h 2
    | exact Parser.decOptSub _ _ _ _ h 0
    | exact Parser.decOrSubs _ _ h
    | exact Parser.decExtractGet _ _ _ h3 h
    | exact Parser.decTail _ _ _
    | exact Parser.decHeadField _ _
    | exact Parser.decHeadOr _ _

end

/-- Modelled from the spec: the flag marking helper parsers synthesized
for DontSkip handling (Parser.is_dont_skip_parser, not under src/); no
such synthesized parser occurs in a modelled grammar tree, so the flag is
false. -/
def Parser.isDontSkipGenerated : Parser → Bool := fun _ => false

/-- The registry (class Unparsers together with the session flag
context.generate_unparser it drives). nodes_to_rules and unparsers model
the defaultdict(list) maps as flat association lists in append order;
canonical models the node.parser assignments of check_nodes_to_rules and
final_unparsers the node.unparser assignments of finalize; astnode_types
models the node-type registry enumeration; warnings models the non-fatal
diagnostics emitted so far. -/
structure Unparsers where
  generate_unparser : Bool
  nodes_to_rules : List (ASTNodeType × Parser)
  unparsers : List (ASTNodeType × NodeUnparser)
  token_sequence_unparsers : List TokenSequenceUnparser
  warnings : List String
  astnode_types : List ASTNodeType
  canonical : List (ASTNodeType × Option Parser)
  final_unparsers : List (ASTNodeType × NodeUnparser)

/-- Unparsers.abort_unparser: emit the warning (with its extra hint when
generation was still enabled) and clear the session-wide generation
flag. The repeated word in the hint text is in the source. -/
def Unparsers.abort_unparser (s : Unparsers) (message : String) : Unparsers :=
  let extra :=
    if s.generate_unparser then
      "\nFor more information, enable the the unparser_eq trace."
    else ""
  { s with
    warnings := s.warnings ++
      [message ++ " This prevents the generation of an automatic unparser."
       ++ extra],
    generate_unparser := false }

/-- The local append closure of Unparsers.compute: record the
(node, parser) pair, and, while generation remains enabled, derive and
record the node unparser occurrence. -/
def Unparsers.computeAppend (s : Unparsers) (node : ASTNodeType)
    (p : Parser) : Except PyVal Unparsers := do
  let s1 := { s with nodes_to_rules := s.nodes_to_rules ++ [(node, p)] }
  if s1.generate_unparser then do
    let u ← NodeUnparser.fromParser node p
    .ok { s1 with unparsers := s1.unparsers ++ [(node, u)] }
  else .ok s1

theorem Parser.decChildren (p : Parser) :
    2 * Parser.psizeList p.children + 1 < 2 * p.psize := by
  have := Parser.psizeList_children_lt p
  omega

theorem Parser.decChildHead (c : Parser) (cs : List Parser) :
    2 * c.psize < 2 * Parser.psizeList (c :: cs) + 1 := by
  simp [Parser.psizeList]
  omega

theorem Parser.decChildTail (c : Parser) (cs : List Parser) :
    2 * Parser.psizeList cs + 1 < 2 * Parser.psizeList (c :: cs) + 1 := by
  have := Parser.psize_pos c
  simp [Parser.psizeList]
  omega

mutual

/-- The compute_internal closure of Unparsers.compute: dispatch on the
combinator kind, recording produced node types (and, while generation is
enabled, unparser occurrences), checking top-level extraction information
loss, and recursing into children with the updated toplevel flag. -/
def Unparsers.compute_internal (s : Unparsers) (p : Parser)
    (toplevel : Bool) : Except PyVal Unparsers := do
  let step : Except PyVal (Unparsers × Bool) :=
    match p with
    | .skip _ => .ok (s, toplevel)
    | .opt (some alts) _ _ => do
      let s1 ← Unparsers.computeAppend s alts.alt_present p
      let s2 ← Unparsers.computeAppend s1 alts.alt_absent p
      .ok (s2, false)
    | .list typ _ _ => do
      let s1 ← Unparsers.computeAppend s typ p
      .ok (s1, false)
    | .transform typ _ => do
      let s1 ← Unparsers.computeAppend s typ p
      .ok (s1, false)
    | .null _ => .ok (s, toplevel)
    | .orP _ => .ok (s, toplevel)
    | .extract _ inner =>
      match inner with
      | .row subs => do
        check_source_language
          (.pyBool
            (!s.generate_unparser || !toplevel ||
              (subs.length == 2 &&
                (match subs[1]? with
                 | some (Parser.tok tk) => tk.val == LexerToken.Termination
                 | _ => false))))
          (.pyStr "Top-level information loss prevents unparsers generation")
        .ok (s, toplevel)
      | _ => .error (.pyStr "AssertionError")
    | _ => .ok (s, toplevel)
  let r ← step
  Unparsers.compute_children r.1 p.children r.2
termination_by 2 * p.psize
decreasing_by
  exact Parser.decChildren p

/-- The children loop of compute_internal. -/
def Unparsers.compute_children (s : Unparsers) (ps : List Parser)
    (toplevel : Bool) : Except PyVal Unparsers :=
  match ps with
  | [] => .ok s
  | c :: cs => do
    let s1 ← Unparsers.compute_internal s c toplevel
    Unparsers.compute_children s1 cs toplevel
termination_by 2 * Parser.psizeList ps + 1
decreasing_by
  · exact Parser.decChildHead _ _
  · exact Parser.decChildTail _ _

end

/-- Unparsers.compute: walk one top-level grammar rule, then soft-abort
generation when the rule's root loses information (does not satisfy
creates_node). The rule-name metadata is external, so the abort message
uses the combinator rendering in its place. -/
def Unparsers.compute (s : Unparsers) (parser : Parser) :
    Except PyVal Unparsers := do
  if parser.isDontSkipGenerated then .ok s
  else do
    let s1 ← Unparsers.compute_internal s parser true
    if !(creates_node parser) then
      .ok (s1.abort_unparser
        (parser.describe ++ " toplevel rule loses information."))
    else .ok s1

mutual

/-- Nesting depth of a parser; the termination measure of
unparser_struct_eq. -/
def Parser.depth : Parser → Nat
  | .defer _ s => 1 + s.depth
  | .dontSkip s => 1 + s.depth
  | .noBacktrack => 1
  | .null _ => 1
  | .opt _ _ s => 1 + s.depth
  | .orP subs => 1 + Parser.depthList subs
  | .predicate s => 1 + s.depth
  | .skip _ => 1
  | .extract _ s => 1 + s.depth
  | .row subs => 1 + Parser.depthList subs
  | .tok _ => 1
  | .transform _ s => 1 + s.depth
  | .list _ _ s => 1 + s.depth

/-- Maximum depth over a list of parsers. -/
def Parser.depthList : List Parser → Nat
  | [] => 0
  | p :: ps => max p.depth (Parser.depthList ps)

end

theorem Parser.depth_pos (p : Parser) : 1 <= p.depth := by
  cases p <;> simp [Parser.depth]

theorem Parser.depth_unwrap_le (p : Parser) :
    (unwrap_dont_skip p).depth <= p.depth := by
  cases p <;> simp [unwrap_dont_skip, Parser.depth]

theorem Parser.depth_le_depthList {p : Parser} {ps : List Parser}
    (h : p ∈ ps) : p.depth <= Parser.depthList ps := by
  induction ps with
  | nil => cases h
  | cons q qs ih =>
    rcases List.mem_cons.1 h with rfl | h2
    · simp [Parser.depthList]
    · have := ih h2
      simp [Parser.depthList]
      omega

theorem Parser.depthList_le_of_forall {l : List Parser} {k : Nat}
    (h : ∀ x ∈ l, Parser.depth x <= k) : Parser.depthList l <= k := by
  induction l with
  | nil => simp [Parser.depthList]
  | cons q qs ih =>
    have h1 := h q (List.mem_cons_self q qs)
    have h2 := ih (fun x hx => h x (List.mem_cons_of_mem q hx))
    simp [Parser.depthList]
    omega

theorem Parser.depth_children_lt {c p : Parser} (h : c ∈ p.children) :
    c.depth < p.depth := by
  cases p <;> simp [Parser.children] at h <;>
    first
      | (subst h
         simp [Parser.depth]
         try omega)
      | (have hdl := Parser.depth_le_depthList h
         simp [Parser.depth]
         omega)

/-- One step of Python zip over a list of lists: the heads, then recurse
on the tails; the first argument bounds the number of produced tuples. -/
def pyZipN : Nat → List (List Parser) → List (List Parser)
  | 0, _ => []
  | n + 1, ls => ls.filterMap List.head? :: pyZipN n (ls.map List.tail)

/-- Python zip(*ls): one tuple per index up to the shortest list. -/
def pyZip (ls : List (List Parser)) : List (List Parser) :=
  pyZipN
    (match ls.map List.length with
     | [] => 0
     | n :: ns => ns.foldl Nat.min n)
    ls

theorem pyZipN_mem :
    ∀ (n : Nat) (ls slice : _), slice ∈ pyZipN n ls →
      ∀ x ∈ slice, ∃ l ∈ ls, x ∈ l := by
  intro n
  induction n with
  | zero =>
    intro ls slice h
    simp [pyZipN] at h
  | succ n ih =>
    intro ls slice h x hx
    simp only [pyZipN, List.mem_cons] at h
    rcases h with rfl | h2
    · rcases List.mem_filterMap.1 hx with ⟨l, hl, hhead⟩
      refine ⟨l, hl, ?_⟩
      cases l <;> simp_all
    · rcases ih (ls.map List.tail) slice h2 x hx with ⟨l2, hl2, hxl2⟩
      rcases List.mem_map.1 hl2 with ⟨l, hl, rfl⟩
      exact ⟨l, hl, List.mem_of_mem_tail hxl2⟩

theorem pyZip_mem {ls : List (List Parser)} {slice : List Parser}
    (h : slice ∈ pyZip ls) : ∀ x ∈ slice, ∃ l ∈ ls, x ∈ l :=
  pyZipN_mem _ _ _ h

/-- Modelled from the spec: langkit.utils.is_same (not under src/) —
whether all elements of the collection are equal. -/
def is_same [BEq α] : List α → Bool
  | [] => true
  | x :: xs => xs.all (fun y => x == y)

/-- The strip-and-unwrap preprocessing of unparser_struct_eq: discard
Null occurrences, strip DontSkip wrappers. -/
def stripParsers (parsers : List Parser) : List Parser :=
  (parsers.filter (fun p => !p.isNullP)).map unwrap_dont_skip

theorem struct_eq_dec_slice (parsers : List Parser) (p0 : Parser)
    (rest : List Parser)
    (hps : stripParsers parsers = p0 :: rest)
    (sl : List Parser)
    (hsl : sl ∈ pyZip ((p0 :: rest).map
             (fun p => p.children.filter (fun c => !c.isNoBacktrack)))) :
    Parser.depthList sl < Parser.depthList parsers := by
  have hK : ∀ q ∈ p0 :: rest, q.depth <= Parser.depthList parsers := by
    intro q hq
    rw [← hps] at hq
    rw [stripParsers] at hq
    rcases List.mem_map.1 hq with ⟨r, hr, rfl⟩
    have h1 := Parser.depth_unwrap_le r
    have h2 := Parser.depth_le_depthList (List.mem_of_mem_filter hr)
    omega
  have hx : ∀ x ∈ sl, x.depth + 1 <= Parser.depthList parsers := by
    intro x hxsl
    rcases pyZip_mem hsl x hxsl with ⟨cl, hcl, hxcl⟩
    rcases List.mem_map.1 hcl with ⟨q, hq, rfl⟩
    have h1 := Parser.depth_children_lt (List.mem_of_mem_filter hxcl)
    have h2 := hK q hq
    omega
  have hpos : 1 <= Parser.depthList parsers := by
    have h1 := hK p0 (List.mem_cons_self p0 rest)
    have h2 := Parser.depth_pos p0
    omega
  have hle : Parser.depthList sl <= Parser.depthList parsers - 1 :=
    Parser.depthList_le_of_forall (fun x hx2 => by have := hx x hx2; omega)
  omega

theorem Parser.parserAttr_depth_lt {q : Parser}
    (hq : q.kind = ParserKind.extractK) :
    (Parser.parserAttr q).depth < q.depth := by
  cases q <;> simp [Parser.kind] at hq <;>
    simp [Parser.parserAttr, Parser.depth]

theorem struct_eq_dec_extract (parsers : List Parser) (p0 : Parser)
    (rest : List Parser)
    (hps : stripParsers parsers = p0 :: rest)
    (hall : (rest.all (fun q => q.kind == p0.kind)) = true)
    (hExt : (p0.kind == ParserKind.extractK) = true) :
    Parser.depthList ((p0 :: rest).map Parser.parserAttr)
      < Parser.depthList parsers := by
  have hkind : ∀ q ∈ p0 :: rest, q.kind = ParserKind.extractK := by
    intro q hq
    rcases List.mem_cons.1 hq with rfl | h2
    · exact eq_of_beq hExt
    · have := List.all_eq_true.1 hall q h2
      have h3 := eq_of_beq this
      rw [h3]
      exact eq_of_beq hExt
  have hK : ∀ q ∈ p0 :: rest, q.depth <= Parser.depthList parsers := by
    intro q hq
    rw [← hps] at hq
    rw [stripParsers] at hq
    rcases List.mem_map.1 hq with ⟨r, hr, rfl⟩
    have h1 := Parser.depth_unwrap_le r
    have h2 := Parser.depth_le_depthList (List.mem_of_mem_filter hr)
    omega
  have hpos : 1 <= Parser.depthList parsers := by
    have h1 := hK p0 (List.mem_cons_self p0 rest)
    have h2 := Parser.depth_pos p0
    omega
  have hle : Parser.depthList ((p0 :: rest).map Parser.parserAttr)
      <= Parser.depthList parsers - 1 := by
    apply Parser.depthList_le_of_forall
    intro x hx
    rcases List.mem_map.1 hx with ⟨q, hq, rfl⟩
    have h1 := Parser.parserAttr_depth_lt (hkind q hq)
    have h2 := hK q hq
    omega
  omega

/-- The fall-through tail of unparser_struct_eq: reached when the
remaining occurrences span several kinds, or are all deferred references
or alternations. At non-top level, require every deferred-resolved
occurrence to satisfy creates_node; at top level, not equal. -/
def structEqFallthrough (ps : List Parser) (toplevel : Bool) :
    Except PyVal Bool :=
  if !toplevel then
    .ok ((ps.map (fun p => match p with
                           | .defer _ sub => sub
                           | q => q)).all creates_node)
  else .ok false

/-- unparser_struct_eq: whether all given parsers are structurally equal
with regards to unparsing. Null occurrences are discarded and DontSkip
wrappers stripped first; a single remaining occurrence is trivially
equal; a single shared kind dispatches on that kind; otherwise (or for
Defer/Or) control falls through to structEqFallthrough. The unhandled
kinds raise NotImplementedError, modelled as an internal error. -/
def unparser_struct_eq (parsers : List Parser) (toplevel : Bool) :
    Except PyVal Bool :=
  match hps : stripParsers parsers with
  | [] => structEqFallthrough [] toplevel
  | [_] => .ok true
  | p0 :: rest =>
    if hall : (rest.all (fun q => q.kind == p0.kind)) = true then
      if hRow : (p0.kind == ParserKind.rowK || p0.kind == ParserKind.transformK
                 || p0.kind == ParserKind.listK
                 || p0.kind == ParserKind.optK) = true then
        let children_lists := (p0 :: rest).map
          (fun p => p.children.filter (fun c => !c.isNoBacktrack))
        if is_same (children_lists.map List.length) then
          (pyZip children_lists).attach.allM
            (fun sl => unparser_struct_eq sl.1 false)
        else .ok false
      else if hTok : (p0.kind == ParserKind.tokK) = true then
        .ok (is_same ((p0 :: rest).map Parser.valAttr))
      else if hExt : (p0.kind == ParserKind.extractK) = true then do
        let b ← unparser_struct_eq ((p0 :: rest).map Parser.parserAttr) true
        .ok (b && is_same ((p0 :: rest).map Parser.indexAttr))
      else if p0.kind == ParserKind.deferK || p0.kind == ParserKind.orK then
        structEqFallthrough (p0 :: rest) toplevel
      else .error (.pyStr "NotImplementedError: Parser type not handled")
    else structEqFallthrough (p0 :: rest) toplevel
termination_by Parser.depthList parsers
decreasing_by
  · exact struct_eq_dec_slice parsers p0 rest hps sl.1 sl.2
  · exact struct_eq_dec_extract parsers p0 rest hps hall hExt

/-- The has_null helper of find_canonical_parser: whether a parser is Null
or recursively has a Null child. -/
def has_null (parser : Parser) : Bool :=
  parser.isNullP || parser.children.attach.any (fun c => has_null c.1)
termination_by parser.psize
decreasing_by
  have h1 := Parser.psize_le_psizeList c.2
  have h2 := Parser.psizeList_children_lt parser
  omega

/-- find_canonical_parser: split the occurrences into those with a nested
Null (funcy.split puts the matching ones first) and prefer the first
occurrence without one; head? models the IndexError on an empty input. -/
def findCanonicalParser (parsers : List Parser) : Option Parser :=
  match parsers.partition has_null with
  | (nulls, no_nulls) =>
    match no_nulls with
    | x :: _ => some x
    | [] => nulls.head?

/-- Group the flat (node, parser) record list per node type, preserving
first-occurrence key order and per-key append order: the items() view of
the nodes_to_rules defaultdict. -/
def addRule : List (ASTNodeType × List Parser) → ASTNodeType → Parser →
    List (ASTNodeType × List Parser)
  | [], n, p => [(n, [p])]
  | (m, ps) :: rest, n, p =>
    if m == n then (m, ps ++ [p]) :: rest
    else (m, ps) :: addRule rest n p

/-- The grouped view of nodes_to_rules. -/
def groupNodesToRules (l : List (ASTNodeType × Parser)) :
    List (ASTNodeType × List Parser) :=
  l.foldl (fun acc np => addRule acc np.1 np.2) []

/-- The unused-node-type warnings of Unparsers.check_nodes_to_rules: one
per concrete node type with no producing rule, except exempt base list
types. -/
def Unparsers.unusedWarnings (s : Unparsers) : List String :=
  s.astnode_types.filterMap (fun nt =>
    if !(s.nodes_to_rules.any (fun np => np.1 == nt)) && !nt.abstract
       && !nt.synthetic && !(nt.is_list_type && nt.element_list_eq_self) then
      some (nt.name
            ++ " has no parser, and is marked neither abstract nor synthetic")
    else none)

/-- The per-node loop of Unparsers.check_nodes_to_rules: the first
structurally non-uniform node type soft-aborts generation and stops the
loop; uniform node types get their canonical parser recorded. -/
def Unparsers.checkGroups (s : Unparsers) :
    List (ASTNodeType × List Parser) → Except PyVal Unparsers
  | [] => .ok s
  | (node, parsers) :: rest => do
    let eq ← unparser_struct_eq parsers true
    if !eq then
      .ok (s.abort_unparser
        ("Node " ++ node.name ++ " is parsed in different incompatible ways."))
    else
      Unparsers.checkGroups
        { s with canonical := s.canonical ++ [(node, findCanonicalParser parsers)] }
        rest

/-- Unparsers.check_nodes_to_rules: emit the unused-node warnings, exit
early when generation is already disabled, then check the structural
uniformity of every node type and assign canonical parsers. -/
def Unparsers.check_nodes_to_rules (s : Unparsers) : Except PyVal Unparsers :=
  let s1 := { s with warnings := s.warnings ++ s.unusedWarnings }
  if !s1.generate_unparser then .ok s1
  else Unparsers.checkGroups s1 (groupNodesToRules s1.nodes_to_rules)

/-- FieldUnparser.collect: harvest the pre and post sequences. -/
def FieldUnparser.collect (fu : FieldUnparser) (s : Unparsers) : Unparsers :=
  { s with token_sequence_unparsers :=
      s.token_sequence_unparsers ++ [fu.pre_tokens, fu.post_tokens] }

/-- RegularNodeUnparser.zip_fields: field unparsers zipped with the
inter-field sequences, a fresh empty sequence standing before the first
field. -/
def RegularNodeUnparser.zip_fields (r : RegularNodeUnparser) :
    List (FieldUnparser × TokenSequenceUnparser) :=
  r.field_unparsers.zip ({ tokens := [] } :: r.inter_tokens)

/-- RegularNodeUnparser.collect. -/
def RegularNodeUnparser.collect (r : RegularNodeUnparser) (s : Unparsers) :
    Unparsers :=
  let s1 := { s with token_sequence_unparsers :=
    s.token_sequence_unparsers ++ [r.pre_tokens] }
  let s2 := r.zip_fields.foldl
    (fun st fi =>
      let st2 := fi.1.collect st
      { st2 with token_sequence_unparsers :=
          st2.token_sequence_unparsers ++ [fi.2] })
    s1
  { s2 with token_sequence_unparsers :=
      s2.token_sequence_unparsers ++ [r.post_tokens] }

/-- Unparser.collect dispatch: list and token-node unparsers collect
nothing; NullNodeUnparser inherits the abstract method, whose call would
be the not-implemented internal error (finalize filters nulls out before
collecting). -/
def NodeUnparser.collect : NodeUnparser → Unparsers → Except PyVal Unparsers
  | .regular r, s => .ok (r.collect s)
  | .list _, s => .ok s
  | .tokenNode _, s => .ok s
  | .nullU _, _ => .error (.pyStr "NotImplementedError")

/-- A tag for the concrete unparser class, for the type assertions of
finalize. -/
def NodeUnparser.kindTag : NodeUnparser → Nat
  | .regular _ => 0
  | .list _ => 1
  | .tokenNode _ => 2
  | .nullU _ => 3

/-- The left fold of combine over the non-null occurrences of one node in
Unparsers.finalize, with its type assertion after every step. -/
def Unparsers.finalizeCombine (first : NodeUnparser)
    (rest : List NodeUnparser) : Except PyVal NodeUnparser :=
  match rest with
  | [] => .ok first
  | u :: rest2 => do
    let combined ← first.combine u
    if combined.kindTag == u.kindTag then
      Unparsers.finalizeCombine combined rest2
    else .error (.pyStr "AssertionError: Incompatible unparsers")

/-- The per-node body of Unparsers.finalize: discard Null occurrences,
fold combine over the rest, record the final unparser and collect its
sequences. -/
def Unparsers.finalizeNode (s : Unparsers) (node : ASTNodeType) :
    Except PyVal Unparsers :=
  let unps := (s.unparsers.filter (fun nu => nu.1 == node)).map
    (fun nu => nu.2)
  if unps.isEmpty then .ok s
  else
    match unps.filter (fun u => !u.isNull) with
    | [] =>
      .error (.pyStr
        "AssertionError: No non-null unparser for non-synthetic node")
    | first :: rest => do
      let combined ← Unparsers.finalizeCombine first rest
      let s1 := { s with final_unparsers :=
        s.final_unparsers ++ [(node, combined)] }
      combined.collect s1

/-- Unparsers.finalize: iterate all node types in registry order. -/
def Unparsers.finalize (s : Unparsers) : Except PyVal Unparsers :=
  s.astnode_types.foldlM Unparsers.finalizeNode s

theorem except_bind_ok {α β : Type} {x : Except PyVal α}
    {f : α → Except PyVal β} {b : β} (h : (x >>= f) = .ok b) :
    ∃ a, x = .ok a ∧ f a = .ok b := by
  cases x with
  | ok a => exact ⟨a, rfl, h⟩
  | error e => simp [Bind.bind, Except.bind] at h

theorem zip_self_all_equivalent (l : List TokenUnparser) :
    (l.zip l).all
      (fun p => TokenUnparser.equivalent (some p.1) (some p.2)) = true := by
  induction l with
  | nil => rfl
  | cons a t ih =>
    simp only [List.zip_cons_cons, List.all_cons, ih, Bool.and_true]
    simp [TokenUnparser.equivalent]

theorem TokenSequenceUnparser.equivalentB_refl (s : TokenSequenceUnparser) :
    TokenSequenceUnparser.equivalentB s s = true := by
  simp [TokenSequenceUnparser.equivalentB, zip_self_all_equivalent]

theorem is_same_iff {α : Type} [BEq α] [LawfulBEq α] (l : List α) :
    is_same l = true ↔ ∀ a ∈ l, ∀ b ∈ l, a = b := by
  cases l with
  | nil => simp [is_same]
  | cons x xs =>
    simp only [is_same, List.all_eq_true, beq_iff_eq]
    constructor
    · intro h a ha b hb
      rcases List.mem_cons.1 ha with rfl | ha2
      · rcases List.mem_cons.1 hb with rfl | hb2
        · rfl
        · exact h b hb2
      · rcases List.mem_cons.1 hb with rfl | hb2
        · exact (h a ha2).symm
        · exact (h a ha2).symm.trans (h b hb2)
    · intro h y hy
      exact h x (List.mem_cons_self x xs) y (List.mem_cons_of_mem x hy)

theorem struct_eq_of_strip_nil {parsers : List Parser} {tl : Bool}
    (h : stripParsers parsers = []) :
    unparser_struct_eq parsers tl = .ok (!tl) := by
  rw [unparser_struct_eq.eq_def]
  split
  · cases tl <;> simp [structEqFallthrough]
  · rename_i hx
    rw [h] at hx
    cases hx
  · rename_i hx
    rw [h] at hx
    cases hx

theorem struct_eq_of_strip_one {parsers : List Parser} {tl : Bool}
    {x : Parser} (h : stripParsers parsers = [x]) :
    unparser_struct_eq parsers tl = .ok true := by
  rw [unparser_struct_eq.eq_def]
  split
  · rename_i hx
    rw [h] at hx
    cases hx
  · rfl
  · rename_i hne hx
    rw [h] at hx
    simp at hx
    exact absurd hx.2 hne

theorem struct_eq_of_strip_toks {parsers : List Parser} {tl : Bool}
    {p0 : Parser} {rest : List Parser}
    (h : stripParsers parsers = p0 :: rest)
    (htok : ∀ q ∈ p0 :: rest, q.kind = ParserKind.tokK) :
    unparser_struct_eq parsers tl
      = .ok (is_same ((p0 :: rest).map Parser.valAttr)) := by
  rw [unparser_struct_eq.eq_def]
  split
  · rename_i hx
    rw [h] at hx
    cases hx
  · rename_i x hx
    rw [h] at hx
    injection hx with h1 h2
    subst h1
    subst h2
    simp [is_same]
  · rename_i hne hx
    rw [h] at hx
    simp at hx
    obtain ⟨rfl, rfl⟩ := hx
    have hall : (rest.all fun q => q.kind == p0.kind) = true := by
      apply List.all_eq_true.2
      intro q hq
      have h3 := htok q (List.mem_cons_of_mem _ hq)
      have h4 := htok p0 (List.mem_cons_self _ _)
      rw [h3, h4]
      simp
    have hk0 : p0.kind = ParserKind.tokK := htok p0 (List.mem_cons_self _ _)
    simp [hall, hk0]
    intro x hx hcontr
    exact absurd (htok x (List.mem_cons_of_mem _ hx)) hcontr

/-- Concrete fixtures used by witnesses and counterexamples. -/
def tkComma : TokenAction := { name := "Comma", matcher := some "," }

def tkSemi : TokenAction := { name := "Semicolon", matcher := some ";" }

def tkId : TokenAction := { name := "Identifier", matcher := none }

def tkLPar : TokenAction := { name := "LPar", matcher := some "(" }

def tkRPar : TokenAction := { name := "RPar", matcher := some ")" }

def ntA : ASTNodeType :=
  { name := "A", parse_fields := [{ qualname := "A.f" }], abstract := false,
    synthetic := false, is_token_node := false, is_ast_node := true,
    is_list_type := false, element_list_eq_self := false }

def ntL : ASTNodeType :=
  { name := "L", parse_fields := [], abstract := false, synthetic := false,
    is_token_node := false, is_ast_node := true, is_list_type := true,
    element_list_eq_self := true }

/-- C10: TokenUnparser.equivalent treats an absent token as equivalent
only to an absent token, and compares two present tokens exactly by their
rendered texts — even when the underlying (kind, match-text) keys differ,
as the last conjunct shows on two distinct keys rendering to "+". -/
theorem claim_C10_token_equivalence :
    TokenUnparser.equivalent none none = true
    ∧ (∀ t : TokenUnparser,
        TokenUnparser.equivalent none (some t) = false
        ∧ TokenUnparser.equivalent (some t) none = false)
    ∧ (∀ t1 t2 : TokenUnparser,
        TokenUnparser.equivalent (some t1) (some t2) = (t1.dumps == t2.dumps))
    ∧ TokenUnparser.equivalent
        (some { token := { name := "Plus", matcher := some "+" },
                match_text := none })
        (some { token := { name := "Op", matcher := none },
                match_text := some "+" }) = true :=
  ⟨rfl, fun _ => ⟨rfl, rfl⟩, fun _ _ => rfl, rfl⟩

/-- C1: against the claim, combining two List node unparsers for the same
node never raises: the source passes the non-empty diagnostic message
where check_source_language expects the predicate (and the predicate where
it expects the message), so the truthiness test always passes and the
first operand is returned even for inequivalent separators. -/
theorem claim_C1_list_combine_never_raises (u1 u2 : ListNodeUnparser)
    (h : u1.node = u2.node) :
    ListNodeUnparser._combine u1 u2 = .ok u1 := by
  obtain ⟨n1, sep1⟩ := u1
  obtain ⟨n2, sep2⟩ := u2
  simp only at h
  subst h
  have hne : ("Inconsistent separation token for " ++ n1.name ++ ": "
      ++ TokenUnparser.dump_or_none sep1 ++ " and "
      ++ TokenUnparser.dump_or_none sep2) ≠ "" := by
    intro hcontr
    have h2 := congrArg String.data hcontr
    simp at h2
  have hb : (("Inconsistent separation token for " ++ n1.name ++ ": "
      ++ TokenUnparser.dump_or_none sep1 ++ " and "
      ++ TokenUnparser.dump_or_none sep2) == "") = false :=
    beq_eq_false_iff_ne.mpr hne
  simp [ListNodeUnparser._combine, check_source_language, PyVal.truthy, hb,
        Bind.bind, Except.bind]

/-- Witness for C1 at the failing input: two list unparsers for the same
node with inequivalent separators ("," and ";") — the combine returns the
first operand and raises nothing. -/
theorem claim_C1_witness :
    TokenUnparser.equivalent
      (some { token := tkComma, match_text := none })
      (some { token := tkSemi, match_text := none }) = false
    ∧ ListNodeUnparser._combine
        { node := ntL, separator := some { token := tkComma, match_text := none } }
        { node := ntL, separator := some { token := tkSemi, match_text := none } }
      = .ok { node := ntL,
              separator := some { token := tkComma, match_text := none } } :=
  ⟨by decide, claim_C1_list_combine_never_raises _ _ rfl⟩

/-- C8: merging two field unparsers for the same (node, field): an
always-absent operand is an identity (the other operand is returned
unchanged); when neither is absent, combine succeeds exactly when the pre
and post token sequences are pairwise equivalent and then returns the left
operand; combine of an operand with itself returns it unchanged. -/
theorem claim_C8_field_combine (x y : FieldUnparser)
    (hn : x.node = y.node) (hf : x.field = y.field) :
    (x.always_absent = true → FieldUnparser.combine x y = .ok y)
    ∧ (x.always_absent = false → y.always_absent = true →
        FieldUnparser.combine x y = .ok x)
    ∧ (x.always_absent = false → y.always_absent = false →
        ((∃ r, FieldUnparser.combine x y = .ok r) ↔
          (TokenSequenceUnparser.equivalentB x.pre_tokens y.pre_tokens = true ∧
           TokenSequenceUnparser.equivalentB x.post_tokens y.post_tokens = true)))
    ∧ (x.always_absent = false → y.always_absent = false →
        TokenSequenceUnparser.equivalentB x.pre_tokens y.pre_tokens = true →
        TokenSequenceUnparser.equivalentB x.post_tokens y.post_tokens = true →
        FieldUnparser.combine x y = .ok x)
    ∧ FieldUnparser.combine x x = .ok x := by
  have hbn : (y.node == x.node) = true := by simp [hn]
  have hbf : (y.field == x.field) = true := by simp [hf]
  refine ⟨?_, ?_, ?_, ?_, ?_⟩
  · intro ha
    simp [FieldUnparser.combine, FieldUnparser._combine, hbn, hbf, ha]
  · intro ha hb
    simp [FieldUnparser.combine, FieldUnparser._combine, hbn, hbf, ha, hb]
  · intro ha hb
    cases hpre : TokenSequenceUnparser.equivalentB x.pre_tokens y.pre_tokens
      <;> cases hpost : TokenSequenceUnparser.equivalentB x.post_tokens y.post_tokens
      <;> simp [FieldUnparser.combine, FieldUnparser._combine, hbn, hbf, ha, hb,
            TokenSequenceUnparser.check_equivalence, check_source_language,
            PyVal.truthy, hpre, hpost, Bind.bind, Except.bind]
  · intro ha hb hpre hpost
    simp [FieldUnparser.combine, FieldUnparser._combine, hbn, hbf, ha, hb,
          TokenSequenceUnparser.check_equivalence, check_source_language,
          PyVal.truthy, hpre, hpost, Bind.bind, Except.bind]
  · cases hx : x.always_absent <;>
      simp [FieldUnparser.combine, FieldUnparser._combine, hx,
            TokenSequenceUnparser.check_equivalence, check_source_language,
            PyVal.truthy, TokenSequenceUnparser.equivalentB_refl,
            Bind.bind, Except.bind]

/-- A concrete present field unparser, for the C8 witness. -/
def fuX : FieldUnparser :=
  { node := ntA, field := { qualname := "A.f" }, always_absent := false,
    pre_tokens := { tokens := [{ token := tkLPar, match_text := none }] },
    post_tokens := { tokens := [{ token := tkRPar, match_text := none }] } }

/-- A concrete always-absent (Null-derived) occurrence of the same field,
for the C8 witness. -/
def fuNull : FieldUnparser := FieldUnparser.mk0 ntA { qualname := "A.f" }

/-- Witness for C8: a concrete non-absent field unparser combined with a
Null-derived (always-absent) occurrence of the same field yields the
non-absent operand back, and combined with itself yields itself. -/
theorem claim_C8_witness :
    FieldUnparser.combine fuX fuNull = .ok fuX
    ∧ FieldUnparser.combine fuX fuX = .ok fuX :=
  ⟨(claim_C8_field_combine fuX fuNull rfl rfl).2.1 rfl rfl,
   (claim_C8_field_combine fuX fuX rfl rfl).2.2.2.2⟩

/-- Fixed-token combinators over the same kind with different literal
match texts, for the C4 counterexample. -/
def tokIdA : Parser := Parser.tok { val := tkId, match_text := some "a" }

def tokIdB : Parser := Parser.tok { val := tkId, match_text := some "b" }

/-- Fixed-token combinators of different kinds, for the C4 witness. -/
def tokCommaP : Parser := Parser.tok { val := tkComma, match_text := none }

def tokSemiP : Parser := Parser.tok { val := tkSemi, match_text := none }

/-- Counterexample for C4: two fixed-token combinators with the same token
kind but different literal match texts are judged structurally equal —
unparser_struct_eq compares only the val attribute, not the match text, so
it returns true where the claim requires false. -/
theorem claim_C4_counterexample :
    unparser_struct_eq [tokIdA, tokIdB] true = .ok true := by
  have htok : ∀ q ∈ [tokIdA, tokIdB], q.kind = ParserKind.tokK := by
    intro q hq
    rcases List.mem_cons.1 hq with rfl | hq2
    · rfl
    · rcases List.mem_cons.1 hq2 with rfl | hq3
      · rfl
      · cases hq3
  have hstrip : stripParsers [tokIdA, tokIdB] = [tokIdA, tokIdB] := rfl
  rw [struct_eq_of_strip_toks hstrip htok]
  have h2 : is_same ([tokIdA, tokIdB].map Parser.valAttr) = true := by decide
  rw [h2]

/-- C4 as amended: over a slot of fixed-token combinators,
unparser_struct_eq decides structural equality by the token kind (val)
alone — false whenever two occupants have different kinds, true whenever
all kinds agree, regardless of literal match texts. -/
theorem claim_C4_amended (parsers : List Parser) (tl : Bool) (p0 : Parser)
    (rest : List Parser) (h : stripParsers parsers = p0 :: rest)
    (htok : ∀ q ∈ p0 :: rest, q.kind = ParserKind.tokK) :
    ((∃ q1 ∈ p0 :: rest, ∃ q2 ∈ p0 :: rest, q1.valAttr ≠ q2.valAttr) →
        unparser_struct_eq parsers tl = .ok false)
    ∧ ((∀ q ∈ p0 :: rest, q.valAttr = p0.valAttr) →
        unparser_struct_eq parsers tl = .ok true) := by
  constructor
  · rintro ⟨q1, hq1, q2, hq2, hne⟩
    rw [struct_eq_of_strip_toks h htok]
    have hfalse : is_same ((p0 :: rest).map Parser.valAttr) = false := by
      cases hcase : is_same ((p0 :: rest).map Parser.valAttr)
      · rfl
      · exfalso
        have hall := (is_same_iff _).1 hcase
        exact hne (hall _ (List.mem_map_of_mem _ hq1)
                        _ (List.mem_map_of_mem _ hq2))
    rw [hfalse]
  · intro hsame
    rw [struct_eq_of_strip_toks h htok]
    have htrue : is_same ((p0 :: rest).map Parser.valAttr) = true := by
      apply (is_same_iff _).2
      intro a ha b hb
      rcases List.mem_map.1 ha with ⟨qa, hqa, rfl⟩
      rcases List.mem_map.1 hb with ⟨qb, hqb, rfl⟩
      rw [hsame qa hqa, hsame qb hqb]
    rw [htrue]

/-- Witness for the amended C4: two fixed-token combinators of different
kinds in the same slot are structurally unequal. -/
theorem claim_C4_amended_witness :
    unparser_struct_eq [tokCommaP, tokSemiP] true = .ok false :=
  (claim_C4_amended [tokCommaP, tokSemiP] true tokCommaP [tokSemiP] rfl
    (by
      intro q hq
      rcases List.mem_cons.1 hq with rfl | hq2
      · rfl
      · rcases List.mem_cons.1 hq2 with rfl | hq3
        · rfl
        · cases hq3)).1
    ⟨tokCommaP, List.mem_cons_self _ _,
     tokSemiP, List.mem_cons_of_mem _ (List.mem_cons_self _ _), by decide⟩

/-- Counterexample for C5: a singleton list holding only an always-empty
(Null) parser, compared at the top level: after discarding the Null
occurrence nothing remains, and unparser_struct_eq returns false at the
top level, against the claimed reflexivity. -/
theorem claim_C5_counterexample :
    unparser_struct_eq [Parser.null ntA] true = .ok false := by
  have h : stripParsers [Parser.null ntA] = [] := rfl
  rw [struct_eq_of_strip_nil h]
  rfl

/-- C5 as amended: after stripping wrappers and discarding always-empty
occurrences, a single remaining occurrence is trivially equal at every
level; zero remaining occurrences are trivially equal only below the top
level, while at the top level the result is false. -/
theorem claim_C5_amended :
    (∀ (parsers : List Parser) (tl : Bool) (x : Parser),
        stripParsers parsers = [x] → unparser_struct_eq parsers tl = .ok true)
    ∧ (∀ parsers : List Parser, stripParsers parsers = [] →
        unparser_struct_eq parsers false = .ok true)
    ∧ (∀ parsers : List Parser, stripParsers parsers = [] →
        unparser_struct_eq parsers true = .ok false) := by
  refine ⟨fun ps tl x h => struct_eq_of_strip_one h, fun ps h => ?_,
          fun ps h => ?_⟩
  · rw [struct_eq_of_strip_nil h]
    rfl
  · rw [struct_eq_of_strip_nil h]
    rfl

/-- Witness for the amended C5: a singleton fixed-token rule is
structurally equal to itself at the top level, and a discarded-to-empty
set of occurrences is trivially equal below the top level. -/
theorem claim_C5_witness :
    unparser_struct_eq [tokCommaP] true = .ok true
    ∧ unparser_struct_eq [Parser.null ntL] false = .ok true :=
  ⟨claim_C5_amended.1 [tokCommaP] true tokCommaP rfl,
   claim_C5_amended.2.1 [Parser.null ntL] rfl⟩

/-- When generation is requested, a top-level extraction whose row fails
the termination-token whitelist makes compute raise the fatal diagnostic
(shared by the C2 and C3 developments). -/
theorem compute_extract_fatal (s : Unparsers) (idx : Nat)
    (subs : List Parser)
    (hflag : s.generate_unparser = true)
    (hshape : (subs.length == 2 &&
      (match subs[1]? with
       | some (Parser.tok tk) => tk.val == LexerToken.Termination
       | _ => false)) = false) :
    Unparsers.compute s (Parser.extract idx (Parser.row subs))
      = .error (.pyStr "Top-level information loss prevents unparsers generation") := by
  have hint : Unparsers.compute_internal s
      (Parser.extract idx (Parser.row subs)) true
      = .error (.pyStr "Top-level information loss prevents unparsers generation") := by
    rw [Unparsers.compute_internal.eq_def]
    simp [check_source_language, PyVal.truthy, hflag, hshape,
          Bind.bind, Except.bind]
  simp [Unparsers.compute, Parser.isDontSkipGenerated, hint,
        Bind.bind, Except.bind]

/-- A session state with generation requested, for witnesses. -/
def s0 : Unparsers :=
  { generate_unparser := true, nodes_to_rules := [], unparsers := [],
    token_sequence_unparsers := [], warnings := [], astnode_types := [ntA],
    canonical := [], final_unparsers := [] }

/-- C3: with unparser generation requested, an extraction combinator at
the top level of a rule whose row is anything other than exactly two
elements with the second a fixed termination token makes compute raise the
fatal Top-level information loss diagnostic: compute produces an error,
not a soft-abort. -/
theorem claim_C3_toplevel_info_loss_fatal (s : Unparsers) (idx : Nat)
    (subs : List Parser)
    (hflag : s.generate_unparser = true)
    (hshape : (subs.length == 2 &&
      (match subs[1]? with
       | some (Parser.tok tk) => tk.val == LexerToken.Termination
       | _ => false)) = false) :
    Unparsers.compute s (Parser.extract idx (Parser.row subs))
      = .error (.pyStr "Top-level information loss prevents unparsers generation") :=
  compute_extract_fatal s idx subs hflag hshape

/-- Witness for C3: a top-level extraction of a one-element row. -/
theorem claim_C3_witness :
    s0.generate_unparser = true
    ∧ Unparsers.compute s0 (Parser.extract 0 (Parser.row [tokCommaP]))
        = .error (.pyStr "Top-level information loss prevents unparsers generation") :=
  ⟨rfl, claim_C3_toplevel_info_loss_fatal s0 0 [tokCommaP] rfl (by decide)⟩

/-- A top-level extraction dropping a non-termination element (the
trailing ";" token), for the C2 counterexample. -/
def g2 : Parser :=
  Parser.extract 0
    (Parser.row [Parser.transform ntA (Parser.row [tokCommaP]), tokSemiP])

/-- Counterexample for C2: a top-level extraction dropping a
non-termination element does not flip the generation flag and return
normally — compute raises the fatal Top-level information loss diagnostic
and produces no resulting state at all. -/
theorem claim_C2_counterexample :
    Unparsers.compute s0 g2
      = .error (.pyStr "Top-level information loss prevents unparsers generation")
    ∧ ¬ ∃ s2, Unparsers.compute s0 g2 = .ok s2 := by
  have h := compute_extract_fatal s0 0
    [Parser.transform ntA (Parser.row [tokCommaP]), tokSemiP] rfl (by decide)
  refine ⟨h, ?_⟩
  rintro ⟨s2, hs2⟩
  rw [g2] at hs2
  rw [h] at hs2
  cases hs2

/-- C2 as amended: with generation requested, a top-level extraction whose
row drops a fixed token other than the termination token raises the fatal
Top-level information loss diagnostic; compilation stops, the session
generation flag is not flipped, and no resulting session state exists. -/
theorem claim_C2_amended_toplevel_drop_fatal (s : Unparsers) (idx : Nat)
    (a : Parser) (tk : TokParser)
    (hflag : s.generate_unparser = true)
    (hterm : (tk.val == LexerToken.Termination) = false) :
    Unparsers.compute s (Parser.extract idx (Parser.row [a, Parser.tok tk]))
      = .error (.pyStr "Top-level information loss prevents unparsers generation")
    ∧ ¬ ∃ s2, Unparsers.compute s
        (Parser.extract idx (Parser.row [a, Parser.tok tk])) = .ok s2 := by
  have hshape : (([a, Parser.tok tk]).length == 2 &&
      (match ([a, Parser.tok tk])[1]? with
       | some (Parser.tok tk) => tk.val == LexerToken.Termination
       | _ => false)) = false := by
    simp [hterm]
  have h := compute_extract_fatal s idx [a, Parser.tok tk] hflag hshape
  refine ⟨h, ?_⟩
  rintro ⟨s2, hs2⟩
  rw [h] at hs2
  cases hs2

/-- Witness for the amended C2 at a concrete grammar dropping a ";". -/
theorem claim_C2_amended_witness :
    Unparsers.compute s0
      (Parser.extract 0
        (Parser.row [Parser.transform ntL (Parser.row [tokCommaP]),
                     Parser.tok { val := tkSemi, match_text := none }]))
      = .error (.pyStr "Top-level information loss prevents unparsers generation") :=
  (claim_C2_amended_toplevel_drop_fatal s0 0
    (Parser.transform ntL (Parser.row [tokCommaP]))
    { val := tkSemi, match_text := none } rfl (by decide)).1

theorem emit_tok (t : TokParser) (acc : List TokenUnparser) :
    NodeUnparser._emit_to_token_sequence (Parser.tok t) acc
      = .ok (acc ++ [TokenUnparser.ofTok t]) := by
  rw [NodeUnparser._emit_to_token_sequence.eq_def]
  simp [unwrap_dont_skip]

theorem emit_field_defer (t : ASTNodeType) (sub : Parser) (fu : FieldUnparser) :
    NodeUnparser._emit_to_field_unparser (Parser.defer t sub) fu
      = .ok { fu with always_absent := fu.always_absent && false } := by
  rw [NodeUnparser._emit_to_field_unparser.eq_def]
  simp [unwrap_dont_skip]

/-- C6, Scenario A: deriving a node unparser for a one-field node from a
transform of the row (fixed token, field sub-parser, fixed token) yields a
Regular unparser whose pre_tokens hold the leading token, with one
not-always-absent field unparser with empty pre/post sequences, no
inter-field sequences, and post_tokens holding the trailing token. The
derivation is a pure function of its arguments, so deriving twice
independently yields this same value both times. -/
theorem claim_C6_scenario_a (node : ASTNodeType) (f : ParseField)
    (lp rp : TokParser) (ft : ASTNodeType) (fsub : Parser) (t0 : ASTNodeType)
    (hfields : node.parse_fields = [f])
    (habs : node.abstract = false) (hsyn : node.synthetic = false)
    (htokn : node.is_token_node = false) :
    NodeUnparser.fromParser node
      (Parser.transform t0 (Parser.row
        [Parser.tok lp, Parser.defer ft fsub, Parser.tok rp]))
    = .ok (.regular
        { node := node,
          pre_tokens := { tokens := [TokenUnparser.ofTok lp] },
          field_unparsers := [{ node := node, field := f,
                                always_absent := false,
                                pre_tokens := { tokens := [] },
                                post_tokens := { tokens := [] } }],
          inter_tokens := [],
          post_tokens := { tokens := [TokenUnparser.ofTok rp] } }) := by
  have hmk : RegularNodeUnparser.mk0 node =
      { node := node, pre_tokens := { tokens := [] },
        field_unparsers := [FieldUnparser.mk0 node f],
        inter_tokens := [], post_tokens := { tokens := [] } } := by
    simp [RegularNodeUnparser.mk0, ASTNodeType.get_parse_fields, hfields]
  rw [NodeUnparser.fromParser.eq_def]
  simp only [habs, hsyn, htokn, Bool.or_self, Bool.false_eq_true, if_false,
             unwrap_dont_skip]
  rw [hmk]
  simp [NodeUnparser.fromParserRow, Parser.discard, emit_tok,
        emit_field_defer, FieldUnparser.mk0, Bind.bind, Except.bind]

/-- The token parser payloads of Scenario A, for the C6 witness. -/
def lpP : TokParser := { val := tkLPar, match_text := none }

def rpP : TokParser := { val := tkRPar, match_text := none }

/-- Witness for C6 on the concrete rule A from sequence("(", field, ")"). -/
theorem claim_C6_witness :
    NodeUnparser.fromParser ntA
      (Parser.transform ntA (Parser.row
        [Parser.tok lpP, Parser.defer ntA tokCommaP, Parser.tok rpP]))
    = .ok (.regular
        { node := ntA,
          pre_tokens := { tokens := [TokenUnparser.ofTok lpP] },
          field_unparsers := [{ node := ntA, field := { qualname := "A.f" },
                                always_absent := false,
                                pre_tokens := { tokens := [] },
                                post_tokens := { tokens := [] } }],
          inter_tokens := [],
          post_tokens := { tokens := [TokenUnparser.ofTok rpP] } }) :=
  claim_C6_scenario_a ntA { qualname := "A.f" } lpP rpP ntA tokCommaP ntA
    rfl rfl rfl rfl

/-- The token unparsers contributed by a run of fixed-token combinators. -/
def toksOf (l : List Parser) : List TokenUnparser :=
  l.filterMap (fun q => match q with
    | .tok t => some (TokenUnparser.ofTok t)
    | _ => none)

theorem emit_fold_toks (l : List Parser) (acc : List TokenUnparser)
    (hl : ∀ q ∈ l, q.isTok = true) :
    l.foldlM (fun acc2 sp => NodeUnparser._emit_to_token_sequence sp acc2) acc
      = .ok (acc ++ toksOf l) := by
  induction l generalizing acc with
  | nil =>
    simp only [toksOf, List.filterMap_nil, List.append_nil, List.foldlM_nil]
    rfl
  | cons q rest ih =>
    have hq := hl q (List.mem_cons_self _ _)
    cases q <;> simp [Parser.isTok] at hq
    rename_i t
    rw [List.foldlM_cons]
    rw [emit_tok]
    simp only [Bind.bind, Except.bind]
    rw [ih _ (fun x hx => hl x (List.mem_cons_of_mem _ hx))]
    simp [toksOf]

theorem emit_field_extract_step (fu : FieldUnparser)
    (pres posts : List Parser) (inner : Parser)
    (hpre : ∀ q ∈ pres, q.isTok = true)
    (hpost : ∀ q ∈ posts, q.isTok = true) :
    NodeUnparser._emit_to_field_unparser
        (Parser.extract pres.length (Parser.row (pres ++ inner :: posts))) fu
      = NodeUnparser._emit_to_field_unparser inner
          { fu with
            always_absent := false,
            pre_tokens := fu.pre_tokens.add { tokens := toksOf pres },
            post_tokens :=
              TokenSequenceUnparser.add { tokens := toksOf posts }
                fu.post_tokens } := by
  have htake : (pres ++ inner :: posts).take pres.length = pres :=
    List.take_left _ _
  have hdrop : (pres ++ inner :: posts).drop (pres.length + 1) = posts := by
    have hsplit : pres ++ inner :: posts = (pres ++ [inner]) ++ posts := by
      simp
    have hlen : (pres ++ [inner]).length = pres.length + 1 := by simp
    rw [hsplit, ← hlen, List.drop_left]
  have hlt : pres.length < (pres ++ inner :: posts).length := by
    simp
  rw [NodeUnparser._emit_to_field_unparser.eq_def]
  simp only [unwrap_dont_skip]
  rw [htake, hdrop]
  rw [emit_fold_toks _ _ hpre, emit_fold_toks _ _ hpost]
  simp only [Bind.bind, Except.bind]
  simp only [hlt, dif_pos]
  have hget : (pres ++ inner :: posts).get ⟨pres.length, hlt⟩ = inner := by
    rw [List.get_eq_getElem]
    rw [List.getElem_append_right (Nat.le_refl pres.length)]
    simp
  rw [hget]
  simp [TokenSequenceUnparser.add]

/-- C7: field-slot extraction on an extraction combinator whose row splits
into a leading fixed-token run, the extracted sub-parser at the extracted
index, and a trailing fixed-token run: it marks the field
not-always-absent, appends the leading run after the existing pre tokens,
prepends the trailing run before the existing post tokens, and recurses on
the extracted sub-parser; consequently, for two nested extractions ending
in a deferred field reference, the final pre_tokens list the runs
outermost first and the final post_tokens list them innermost first. -/
theorem claim_C7_extract_field (fu : FieldUnparser)
    (pres posts : List Parser) (inner : Parser)
    (hpre : ∀ q ∈ pres, q.isTok = true)
    (hpost : ∀ q ∈ posts, q.isTok = true) :
    (NodeUnparser._emit_to_field_unparser
        (Parser.extract pres.length (Parser.row (pres ++ inner :: posts))) fu
      = NodeUnparser._emit_to_field_unparser inner
          { fu with
            always_absent := false,
            pre_tokens := fu.pre_tokens.add { tokens := toksOf pres },
            post_tokens :=
              TokenSequenceUnparser.add { tokens := toksOf posts }
                fu.post_tokens })
    ∧ (∀ (pres2 posts2 : List Parser) (ft : ASTNodeType) (fsub : Parser),
        (∀ q ∈ pres2, q.isTok = true) → (∀ q ∈ posts2, q.isTok = true) →
        NodeUnparser._emit_to_field_unparser
          (Parser.extract pres.length (Parser.row (pres ++
            (Parser.extract pres2.length
              (Parser.row (pres2 ++ Parser.defer ft fsub :: posts2)))
            :: posts))) fu
        = .ok { fu with
            always_absent := false,
            pre_tokens :=
              (fu.pre_tokens.add { tokens := toksOf pres }).add
                { tokens := toksOf pres2 },
            post_tokens :=
              TokenSequenceUnparser.add { tokens := toksOf posts2 }
                (TokenSequenceUnparser.add { tokens := toksOf posts }
                  fu.post_tokens) }) := by
  constructor
  · exact emit_field_extract_step fu pres posts inner hpre hpost
  · intro pres2 posts2 ft fsub hpre2 hpost2
    rw [emit_field_extract_step fu pres posts _ hpre hpost]
    rw [emit_field_extract_step _ pres2 posts2 _ hpre2 hpost2]
    rw [emit_field_defer]
    simp

/-- Witness for C7: nested extraction Pick("(", Pick(",", field, ";"), ")")
accumulates pre tokens outermost-to-innermost and post tokens
innermost-to-outermost on a fresh field unparser. -/
theorem claim_C7_witness :
    NodeUnparser._emit_to_field_unparser
      (Parser.extract 1 (Parser.row [Parser.tok lpP,
        Parser.extract 1 (Parser.row
          [tokCommaP, Parser.defer ntA tokCommaP, tokSemiP]),
        Parser.tok rpP]))
      fuNull
    = .ok { node := ntA, field := { qualname := "A.f" },
            always_absent := false,
            pre_tokens := { tokens :=
              [TokenUnparser.ofTok lpP,
               TokenUnparser.ofTok { val := tkComma, match_text := none }] },
            post_tokens := { tokens :=
              [TokenUnparser.ofTok { val := tkSemi, match_text := none },
               TokenUnparser.ofTok rpP] } } := by
  exact (claim_C7_extract_field fuNull [Parser.tok lpP] [Parser.tok rpP]
      tokCommaP (by simp [Parser.isTok]) (by simp [Parser.isTok])).2
    [tokCommaP] [tokSemiP] ntA tokCommaP
    (by simp [tokCommaP, Parser.isTok]) (by simp [tokSemiP, Parser.isTok])

/-- Once the generation flag is off: it stays off, no unparser occurrence
is appended, and nodes_to_rules only grows by appending. -/
def FlagOffEvolution (s s2 : Unparsers) : Prop :=
  s2.generate_unparser = false ∧ s2.unparsers = s.unparsers ∧
    ∃ t, s2.nodes_to_rules = s.nodes_to_rules ++ t

theorem FlagOffEvolution.refl0 {s : Unparsers}
    (h : s.generate_unparser = false) : FlagOffEvolution s s :=
  ⟨h, rfl, [], by simp⟩

theorem FlagOffEvolution.trans0 {s a b : Unparsers}
    (h1 : FlagOffEvolution s a) (h2 : FlagOffEvolution a b) :
    FlagOffEvolution s b := by
  refine ⟨h2.1, h2.2.1.trans h1.2.1, ?_⟩
  obtain ⟨t1, ht1⟩ := h1.2.2
  obtain ⟨t2, ht2⟩ := h2.2.2
  exact ⟨t1 ++ t2, by rw [ht2, ht1, List.append_assoc]⟩

theorem computeAppend_flag_off (s : Unparsers) (n : ASTNodeType) (p : Parser)
    (h : s.generate_unparser = false) :
    Unparsers.computeAppend s n p
      = .ok { s with nodes_to_rules := s.nodes_to_rules ++ [(n, p)] } := by
  simp [Unparsers.computeAppend, h]

mutual

theorem compute_internal_flag_off (s : Unparsers) (p : Parser) (tl : Bool)
    (s2 : Unparsers) (hf : s.generate_unparser = false)
    (h : Unparsers.compute_internal s p tl = .ok s2) :
    FlagOffEvolution s s2 := by
  rw [Unparsers.compute_internal.eq_def] at h
  dsimp only at h
  obtain ⟨r, hstep, hrest⟩ := except_bind_ok h
  have hstep2 : FlagOffEvolution s r.1 := by
    clear h hrest
    cases p
    case opt booleanize is_error sub =>
      cases booleanize with
      | some alts =>
        dsimp only at hstep
        rw [computeAppend_flag_off s _ _ hf] at hstep
        simp only [Bind.bind, Except.bind] at hstep
        rw [computeAppend_flag_off _ _ _ (by simp [hf])] at hstep
        simp only at hstep
        injection hstep with h2
        rw [← h2]
        exact ⟨by simp [hf], by simp,
          [(alts.alt_present, Parser.opt (some alts) is_error sub),
           (alts.alt_absent, Parser.opt (some alts) is_error sub)], by simp⟩
      | none =>
        dsimp only at hstep
        injection hstep with h2
        rw [← h2]
        exact FlagOffEvolution.refl0 hf
    case list typ sep sub =>
      dsimp only at hstep
      rw [computeAppend_flag_off s _ _ hf] at hstep
      simp only [Bind.bind, Except.bind] at hstep
      injection hstep with h2
      rw [← h2]
      exact ⟨by simp [hf], by simp, [(typ, Parser.list typ sep sub)], by simp⟩
    case transform typ sub =>
      dsimp only at hstep
      rw [computeAppend_flag_off s _ _ hf] at hstep
      simp only [Bind.bind, Except.bind] at hstep
      injection hstep with h2
      rw [← h2]
      exact ⟨by simp [hf], by simp, [(typ, Parser.transform typ sub)],
             by simp⟩
    case extract index inner =>
      cases inner
      case row subs =>
        dsimp only at hstep
        obtain ⟨u, hu, hr⟩ := except_bind_ok hstep
        injection hr with h2
        rw [← h2]
        exact FlagOffEvolution.refl0 hf
      all_goals
        (dsimp only at hstep
         cases hstep)
    all_goals
      (dsimp only at hstep
       injection hstep with h2
       rw [← h2]
       exact FlagOffEvolution.refl0 hf)
  exact FlagOffEvolution.trans0 hstep2
    (compute_children_flag_off r.1 p.children r.2 s2 hstep2.1 hrest)
termination_by 2 * p.psize
decreasing_by
  exact Parser.decChildren p

theorem compute_children_flag_off (s : Unparsers) (ps : List Parser)
    (tl : Bool) (s2 : Unparsers) (hf : s.generate_unparser = false)
    (h : Unparsers.compute_children s ps tl = .ok s2) :
    FlagOffEvolution s s2 := by
  match ps with
  | [] =>
    rw [Unparsers.compute_children.eq_def] at h
    dsimp only at h
    injection h with h2
    rw [← h2]
    exact FlagOffEvolution.refl0 hf
  | c :: cs =>
    rw [Unparsers.compute_children.eq_def] at h
    dsimp only at h
    obtain ⟨s1, hc, hcs⟩ := except_bind_ok h
    have h1 := compute_internal_flag_off s c tl s1 hf hc
    have h2 := compute_children_flag_off s1 cs tl s2 h1.1 hcs
    exact FlagOffEvolution.trans0 h1 h2
termination_by 2 * Parser.psizeList ps + 1
decreasing_by
  · exact Parser.decChildHead _ _
  · exact Parser.decChildTail _ _

end

theorem cc_nil (s : Unparsers) (tl : Bool) :
    Unparsers.compute_children s [] tl = .ok s := by
  rw [Unparsers.compute_children.eq_def]

theorem cc_cons (s : Unparsers) (c : Parser) (cs : List Parser) (tl : Bool) :
    Unparsers.compute_children s (c :: cs) tl
      = (Unparsers.compute_internal s c tl >>= fun s1 =>
          Unparsers.compute_children s1 cs tl) := by
  rw [Unparsers.compute_children.eq_def]

theorem ci_tok (s : Unparsers) (t : TokParser) (tl : Bool) :
    Unparsers.compute_internal s (Parser.tok t) tl = .ok s := by
  rw [Unparsers.compute_internal.eq_def]
  dsimp only [Parser.children]
  simp only [Bind.bind, Except.bind]
  exact cc_nil s tl

theorem compute_flag_off (s : Unparsers) (p : Parser) (s2 : Unparsers)
    (hf : s.generate_unparser = false) (h : Unparsers.compute s p = .ok s2) :
    FlagOffEvolution s s2 := by
  simp only [Unparsers.compute, Parser.isDontSkipGenerated,
             Bool.false_eq_true, if_false] at h
  obtain ⟨s1, h1, h2⟩ := except_bind_ok h
  have hinv := compute_internal_flag_off s p true s1 hf h1
  cases hcn : creates_node p <;> rw [hcn] at h2
  · simp only [Bool.not_false, if_true] at h2
    injection h2 with h3
    rw [← h3]
    refine FlagOffEvolution.trans0 hinv ?_
    exact ⟨by simp [Unparsers.abort_unparser], by simp [Unparsers.abort_unparser],
           [], by simp [Unparsers.abort_unparser]⟩
  · simp only [Bool.not_true, if_false] at h2
    injection h2 with h3
    rw [← h3]
    exact hinv

theorem check_flag_off (s s2 : Unparsers) (hf : s.generate_unparser = false)
    (h : Unparsers.check_nodes_to_rules s = .ok s2) :
    s2.generate_unparser = false ∧ s2.unparsers = s.unparsers
      ∧ s2.nodes_to_rules = s.nodes_to_rules := by
  simp only [Unparsers.check_nodes_to_rules, hf] at h
  injection h with h2
  rw [← h2]
  exact ⟨by simp [hf], by simp, by simp⟩

theorem collect_foldl_flag
    (l : List (FieldUnparser × TokenSequenceUnparser)) (st : Unparsers) :
    (List.foldl (fun st2 fi =>
        let st3 := fi.1.collect st2
        { st3 with token_sequence_unparsers :=
            st3.token_sequence_unparsers ++ [fi.2] }) st l).generate_unparser
      = st.generate_unparser := by
  induction l generalizing st with
  | nil => rfl
  | cons a t ih =>
    rw [List.foldl_cons, ih]
    simp [FieldUnparser.collect]

theorem collect_flag (u : NodeUnparser) (st st2 : Unparsers)
    (h : u.collect st = .ok st2) :
    st2.generate_unparser = st.generate_unparser := by
  cases u with
  | regular r =>
    simp only [NodeUnparser.collect] at h
    injection h with h2
    rw [← h2]
    simp [RegularNodeUnparser.collect, collect_foldl_flag]
  | list l =>
    simp only [NodeUnparser.collect] at h
    injection h with h2
    rw [← h2]
  | tokenNode n =>
    simp only [NodeUnparser.collect] at h
    injection h with h2
    rw [← h2]
  | nullU n =>
    simp only [NodeUnparser.collect] at h
    cases h

theorem finalizeNode_flag (st : Unparsers) (n : ASTNodeType)
    (st2 : Unparsers) (h : Unparsers.finalizeNode st n = .ok st2) :
    st2.generate_unparser = st.generate_unparser := by
  simp only [Unparsers.finalizeNode] at h
  split at h
  · injection h with h2
    rw [← h2]
  · split at h
    · cases h
    · obtain ⟨c, hc, h2⟩ := except_bind_ok h
      have h3 := collect_flag _ _ _ h2
      rw [h3]

theorem finalize_flag : ∀ (l : List ASTNodeType) (st st2 : Unparsers),
    List.foldlM Unparsers.finalizeNode st l = .ok st2 →
    st2.generate_unparser = st.generate_unparser := by
  intro l
  induction l with
  | nil =>
    intro st st2 h
    rw [List.foldlM_nil] at h
    injection h with h2
    rw [← h2]
  | cons a t ih =>
    intro st st2 h
    rw [List.foldlM_cons] at h
    obtain ⟨st1, h1, h2⟩ := except_bind_ok h
    rw [ih _ _ h2, finalizeNode_flag _ _ _ h1]

theorem compute_records_when_disabled (s : Unparsers) (n : ASTNodeType)
    (tp : TokParser) (hf : s.generate_unparser = false) :
    Unparsers.compute s (Parser.transform n (Parser.row [Parser.tok tp]))
      = .ok { s with nodes_to_rules := s.nodes_to_rules
          ++ [(n, Parser.transform n (Parser.row [Parser.tok tp]))] } := by
  have hf1 : ({ s with nodes_to_rules := s.nodes_to_rules
      ++ [(n, Parser.transform n (Parser.row [Parser.tok tp]))] }
        : Unparsers).generate_unparser = false := by simp [hf]
  have hrow : Unparsers.compute_internal
      { s with nodes_to_rules := s.nodes_to_rules
          ++ [(n, Parser.transform n (Parser.row [Parser.tok tp]))] }
      (Parser.row [Parser.tok tp]) false
      = .ok { s with nodes_to_rules := s.nodes_to_rules
          ++ [(n, Parser.transform n (Parser.row [Parser.tok tp]))] } := by
    rw [Unparsers.compute_internal.eq_def]
    dsimp only [Parser.children]
    simp only [Bind.bind, Except.bind]
    rw [cc_cons, ci_tok]
    simp only [Bind.bind, Except.bind]
    exact cc_nil _ _
  have hci : Unparsers.compute_internal s
      (Parser.transform n (Parser.row [Parser.tok tp])) true
      = .ok { s with nodes_to_rules := s.nodes_to_rules
          ++ [(n, Parser.transform n (Parser.row [Parser.tok tp]))] } := by
    rw [Unparsers.compute_internal.eq_def]
    dsimp only [Parser.children]
    rw [computeAppend_flag_off s _ _ hf]
    simp only [Bind.bind, Except.bind]
    rw [cc_cons, hrow]
    simp only [Bind.bind, Except.bind]
    exact cc_nil _ _
  have hcn : creates_node (Parser.transform n (Parser.row [Parser.tok tp]))
      = true := by
    rw [creates_node.eq_def]
  simp [Unparsers.compute, Parser.isDontSkipGenerated, hci, hcn,
        Bind.bind, Except.bind]

/-- C9: once the session-wide generation flag is false, no registry
operation sets it back to true: compute preserves the cleared flag,
appends no NodeUnparser occurrence, and only appends to nodes_to_rules;
check_nodes_to_rules preserves the cleared flag and the unparser table;
finalize preserves the cleared flag; and, concretely, a subsequent
compute of a node-producing rule still records its (node, parser) pair
while leaving the unparser occurrences untouched. -/
theorem claim_C9_flag_monotone :
    (∀ (s : Unparsers) (p : Parser) (s2 : Unparsers),
        s.generate_unparser = false → Unparsers.compute s p = .ok s2 →
        s2.generate_unparser = false ∧ s2.unparsers = s.unparsers ∧
          ∃ t, s2.nodes_to_rules = s.nodes_to_rules ++ t)
    ∧ (∀ s s2 : Unparsers, s.generate_unparser = false →
        Unparsers.check_nodes_to_rules s = .ok s2 →
        s2.generate_unparser = false ∧ s2.unparsers = s.unparsers)
    ∧ (∀ s s2 : Unparsers, s.generate_unparser = false →
        Unparsers.finalize s = .ok s2 → s2.generate_unparser = false)
    ∧ (∀ (s : Unparsers) (n : ASTNodeType) (tp : TokParser),
        s.generate_unparser = false →
        Unparsers.compute s (Parser.transform n (Parser.row [Parser.tok tp]))
          = .ok { s with nodes_to_rules := s.nodes_to_rules
              ++ [(n, Parser.transform n (Parser.row [Parser.tok tp]))] }) := by
  refine ⟨?_, ?_, ?_, ?_⟩
  · intro s p s2 hf h
    exact compute_flag_off s p s2 hf h
  · intro s s2 hf h
    have h1 := check_flag_off s s2 hf h
    exact ⟨h1.1, h1.2.1⟩
  · intro s s2 hf h
    rw [Unparsers.finalize] at h
    rw [finalize_flag _ _ _ h]
    exact hf
  · intro s n tp hf
    exact compute_records_when_disabled s n tp hf

/-- A session state whose generation flag has been cleared, for the C9
witness. -/
def s0f : Unparsers :=
  { generate_unparser := false, nodes_to_rules := [], unparsers := [],
    token_sequence_unparsers := [], warnings := [], astnode_types := [ntA],
    canonical := [], final_unparsers := [] }

/-- Witness for C9: with the flag cleared, computing a concrete rule
records the rule and appends no unparser occurrence. -/
theorem claim_C9_witness :
    s0f.generate_unparser = false
    ∧ Unparsers.compute s0f (Parser.transform ntA (Parser.row [Parser.tok lpP]))
        = .ok { s0f with nodes_to_rules := s0f.nodes_to_rules
            ++ [(ntA, Parser.transform ntA (Parser.row [Parser.tok lpP]))] } :=
  ⟨rfl, claim_C9_flag_monotone.2.2.2 s0f ntA lpP rfl⟩
